import Mathlib

/-!
Shallow embedding of the `tlk_events` Go service: the timestamp parser
(`utils.ParseTimestamp`), the creation-request validator (`models.IsValid`),
the record mapper of the create handler (`service.createEvent`), and the
SQLite-backed store operations (`repository.InsertEvent`, `GetEventByID`,
`GetAllEvents`, `UpdateEvent`, `DeleteEvent`).

Modelling conventions:
* Go `time.Time` values are represented by `GoTime`: the civil fields the
  accepted layouts carry (year/month/day/hour/minute/second), the
  nanosecond part, and the fixed zone offset in seconds east of UTC.
  The absolute instant a value denotes is `instNs` (nanoseconds since the
  Unix epoch, as an integer); `t.Before(u)` is `goBefore`.
* UUIDs are modelled as strings; `uuid.Nil` is the empty string and
  `uuid.New()` is supplied as an explicit `freshId` argument.
  `time.Now()` is supplied as an explicit `now` argument.
* The SQLite engine behaviour used by the repository is modelled
  directly: the `events` table is a list of `Row`s in insertion order,
  `INSERT` fails on a `CHECK(length(title) <= 100)` violation or a
  primary-key collision, `ORDER BY start_time` compares the stored text
  byte-wise (BINARY collation), and `UPDATE`/`DELETE` report the number
  of affected rows.
-/

/-- `'0'..'9'` to its value, like Go's digit handling in `time` parsing. -/
def digitVal (c : Char) : Option Nat :=
  if 48 ≤ c.toNat ∧ c.toNat ≤ 57 then some (c.toNat - 48) else none

/-- Two fixed digits (Go `getnum` with `fixed = true`). -/
def parse2 : List Char → Option (Nat × List Char)
  | a :: b :: rest => do
    let x ← digitVal a
    let y ← digitVal b
    pure (10 * x + y, rest)
  | _ => none

/-- Four fixed digits (Go's handling of the `2006` year chunk). -/
def parse4 : List Char → Option (Nat × List Char)
  | a :: b :: c :: d :: rest => do
    let x ← digitVal a
    let y ← digitVal b
    let z ← digitVal c
    let w ← digitVal d
    pure (1000 * x + 100 * y + 10 * z + w, rest)
  | _ => none

/-- One or two digits (Go `getnum` with `fixed = false`, used for the
`15` hour chunk). -/
def parseFlex2 : List Char → Option (Nat × List Char)
  | a :: rest =>
    match digitVal a, rest with
    | none, _ => none
    | some x, b :: rest2 =>
      match digitVal b with
      | some y => some (10 * x + y, rest2)
      | none => some (x, b :: rest2)
    | some x, [] => some (x, [])
  | [] => none

/-- A required literal character of the layout. -/
def expectChar (c : Char) : List Char → Option (List Char)
  | a :: rest => if a = c then some rest else none
  | [] => none

/-- Leap-year rule used by Go's `isLeap`. -/
def isLeap (y : Nat) : Bool :=
  y % 4 = 0 && (y % 100 != 0 || y % 400 = 0)

/-- Days in a month, Go's `daysIn`. -/
def daysInMonth (y m : Nat) : Nat :=
  if m = 2 then (if isLeap y then 29 else 28)
  else if m = 4 ∨ m = 6 ∨ m = 9 ∨ m = 11 then 30
  else 31

/-- The shared `YYYY-MM-DD<sep>HH:MM:SS` prefix of all six accepted
layouts, with Go's range checks. -/
def parseCore (sep : Char) (cs : List Char) :
    Option (Nat × Nat × Nat × Nat × Nat × Nat × List Char) := do
  let (y, cs) ← parse4 cs
  let cs ← expectChar '-' cs
  let (mo, cs) ← parse2 cs
  let cs ← expectChar '-' cs
  let (d, cs) ← parse2 cs
  let cs ← expectChar sep cs
  let (h, cs) ← parseFlex2 cs
  let cs ← expectChar ':' cs
  let (mi, cs) ← parse2 cs
  let cs ← expectChar ':' cs
  let (s, cs) ← parse2 cs
  if 1 ≤ mo ∧ mo ≤ 12 ∧ 1 ≤ d ∧ d ≤ daysInMonth y mo ∧ h ≤ 23 ∧ mi ≤ 59 ∧ s ≤ 59 then
    pure (y, mo, d, h, mi, s, cs)
  else none

/-- The `Z07:00` chunk: a literal `Z` meaning UTC, or `±hh:mm`
(offset in seconds; Go applies no range check to the two digit pairs). -/
def parseOffset : List Char → Option (Int × List Char)
  | [] => none
  | c :: rest =>
    if c = 'Z' then some (0, rest)
    else if c = '+' ∨ c = '-' then do
      let (h, cs) ← parse2 rest
      let cs ← expectChar ':' cs
      let (m, cs) ← parse2 cs
      let off : Int := ((h * 3600 + m * 60 : Nat) : Int)
      pure (if c = '-' then -off else off, cs)
    else none

/-- A maximal run of digits, as digit values. -/
def takeDigits : List Char → List Nat × List Char
  | c :: rest =>
    match digitVal c with
    | some d => let (ds, r) := takeDigits rest; (d :: ds, r)
    | none => ([], c :: rest)
  | [] => ([], [])

/-- Go `parseNanoseconds`: the first nine fraction digits scaled to
nanoseconds (later digits are consumed but ignored). -/
def nsecOfDigits (ds : List Nat) : Nat :=
  (ds.take 9).foldl (fun a d => 10 * a + d) 0 * 10 ^ (9 - min ds.length 9)

/-- The optional fractional second of `RFC3339Nano` (`.999999999`):
taken only when a `.` or `,` followed by a digit is present. -/
def parseFracOpt : List Char → Nat × List Char
  | c :: rest =>
    if c = '.' ∨ c = ',' then
      match rest with
      | d :: _ =>
        match digitVal d with
        | some _ => let (ds, r) := takeDigits rest; (nsecOfDigits ds, r)
        | none => (0, c :: rest)
      | [] => (0, c :: rest)
    else (0, c :: rest)
  | [] => (0, [])

/-- Exactly `k` digits accumulated into a number. -/
def parseDigitsAcc : Nat → Nat → List Char → Option (Nat × List Char)
  | 0, acc, cs => some (acc, cs)
  | k + 1, acc, c :: rest => do
    let d ← digitVal c
    parseDigitsAcc k (10 * acc + d) rest
  | _ + 1, _, [] => none

/-- A fixed-width fractional second (`.000` / `.000000`): separator then
exactly `k` digits, scaled to nanoseconds. -/
def parseFracFixed (k : Nat) : List Char → Option (Nat × List Char)
  | c :: rest =>
    if c = '.' ∨ c = ',' then do
      let (v, cs) ← parseDigitsAcc k 0 rest
      pure (v * 10 ^ (9 - k), cs)
    else none
  | [] => none

/-- A Go `time.Time` as produced by parsing one of the accepted layouts:
civil fields, nanoseconds, and the fixed zone offset in seconds. -/
structure GoTime where
  year : Nat
  month : Nat
  day : Nat
  hour : Nat
  minute : Nat
  second : Nat
  nsec : Nat
  offset : Int
deriving DecidableEq, Repr

/-- Go's zero `time.Time`: January 1, year 1, 00:00:00 UTC. -/
def zeroTime : GoTime := ⟨1, 1, 1, 0, 0, 0, 0, 0⟩

/-- Layout 1, `time.RFC3339` = `2006-01-02T15:04:05Z07:00`. Go
`time.Parse` consumes a stray fractional second right after the
seconds field even though this layout has no fraction chunk. -/
def pRFC3339 (cs : List Char) : Option GoTime := do
  let (y, mo, d, h, mi, s, cs) ← parseCore 'T' cs
  let (ns, cs) := parseFracOpt cs
  let (off, cs) ← parseOffset cs
  if cs = [] then pure ⟨y, mo, d, h, mi, s, ns, off⟩ else none

/-- Layout 2, `time.RFC3339Nano` = `2006-01-02T15:04:05.999999999Z07:00`. -/
def pRFC3339Nano (cs : List Char) : Option GoTime := do
  let (y, mo, d, h, mi, s, cs) ← parseCore 'T' cs
  let (ns, cs) := parseFracOpt cs
  let (off, cs) ← parseOffset cs
  if cs = [] then pure ⟨y, mo, d, h, mi, s, ns, off⟩ else none

/-- Layout 3, `2006-01-02T15:04:05` (no zone: Go yields UTC), with
Go's stray-fraction rule after the seconds field. -/
def pNoZoneT (cs : List Char) : Option GoTime := do
  let (y, mo, d, h, mi, s, cs) ← parseCore 'T' cs
  let (ns, cs) := parseFracOpt cs
  if cs = [] then pure ⟨y, mo, d, h, mi, s, ns, 0⟩ else none

/-- Layout 4, `2006-01-02 15:04:05`, with Go's stray-fraction rule
after the seconds field. -/
def pNoZoneSpace (cs : List Char) : Option GoTime := do
  let (y, mo, d, h, mi, s, cs) ← parseCore ' ' cs
  let (ns, cs) := parseFracOpt cs
  if cs = [] then pure ⟨y, mo, d, h, mi, s, ns, 0⟩ else none

/-- Layouts 5 and 6, `2006-01-02T15:04:05.000Z` / `...000000Z`: a
fixed-width fraction then a literal `Z` (no zone: Go yields UTC). -/
def pFracZ (k : Nat) (cs : List Char) : Option GoTime := do
  let (y, mo, d, h, mi, s, cs) ← parseCore 'T' cs
  let (ns, cs) ← parseFracFixed k cs
  let cs ← expectChar 'Z' cs
  if cs = [] then pure ⟨y, mo, d, h, mi, s, ns, 0⟩ else none

/-- The ordered format list of `utils.ParseTimestamp`. -/
def timeFormats : List (List Char → Option GoTime) :=
  [pRFC3339, pRFC3339Nano, pNoZoneT, pNoZoneSpace, pFracZ 3, pFracZ 6]

/-- The try-each-format loop of `utils.ParseTimestamp`. -/
def tryFormats : List (List Char → Option GoTime) → List Char → Option GoTime
  | [], _ => none
  | f :: fs, cs =>
    match f cs with
    | some t => some t
    | none => tryFormats fs cs

/-- `utils.ParseTimestamp`. -/
def ParseTimestamp (s : String) : Option GoTime :=
  tryFormats timeFormats s.data

/-- Days since the Unix epoch of a civil date (proleptic Gregorian). -/
def daysFromCivil (y m d : Int) : Int :=
  let y2 := if m ≤ 2 then y - 1 else y
  let era := (if 0 ≤ y2 then y2 else y2 - 399) / 400
  let yoe := y2 - era * 400
  let mp := (m + 9) % 12
  let doy := (153 * mp + 2) / 5 + d - 1
  let doe := yoe * 365 + yoe / 4 - yoe / 100 + doy
  era * 146097 + doe - 719468

/-- Seconds since the Unix epoch denoted by a `GoTime`. -/
def epochSec (t : GoTime) : Int :=
  daysFromCivil t.year t.month t.day * 86400
    + t.hour * 3600 + t.minute * 60 + t.second - t.offset

/-- The absolute instant in nanoseconds since the Unix epoch. -/
def instNs (t : GoTime) : Int :=
  epochSec t * 1000000000 + t.nsec

/-- Go `t.Before(u)`: absolute comparison of the two instants. -/
def goBefore (t u : GoTime) : Bool :=
  instNs t < instNs u

/-- `models.CreateEventRequest`. -/
structure CreateEventRequest where
  Title : String
  Description : Option String
  StartTime : String
  EndTime : String
deriving DecidableEq, Repr

/-- The four validation error values of `models`. -/
inductive ValidationError where
  | TitleEmpty
  | TitleTooLong
  | EndTimeBeforeStart
  | InvalidTimeFormat
deriving DecidableEq, Repr

/-- `models.MaxTitleLength`. -/
def MaxTitleLength : Nat := 100

/-- `models.IsValid` (a `none` result is the nil error, `some` the
returned validation error; `len` on a Go string is its UTF-8 byte
count, hence `utf8ByteSize`). -/
def IsValid (e : CreateEventRequest) : Option ValidationError :=
  if e.Title = "" then some .TitleEmpty
  else if MaxTitleLength < e.Title.utf8ByteSize then some .TitleTooLong
  else
    match ParseTimestamp e.StartTime with
    | none => some .InvalidTimeFormat
    | some s =>
      match ParseTimestamp e.EndTime with
      | none => some .InvalidTimeFormat
      | some en => if goBefore en s then some .EndTimeBeforeStart else none

/-- A digit value as a character. -/
def digitChar (d : Nat) : Char := Char.ofNat (48 + d)

/-- Two zero-padded digits, as printed by Go `appendInt(b, n, 2)` for
`n < 100`. -/
def pad2 (n : Nat) : List Char := [digitChar (n / 10), digitChar (n % 10)]

/-- Four zero-padded digits, as printed for the year when `n < 10000`. -/
def pad4 (n : Nat) : List Char :=
  [digitChar (n / 1000), digitChar (n / 100 % 10),
   digitChar (n / 10 % 10), digitChar (n % 10)]

/-- Go's rendering of the `Z07:00` chunk: `Z` when the offset is zero,
otherwise a sign and the offset in whole minutes as `hh:mm`. -/
def fmtOffset (off : Int) : List Char :=
  if off = 0 then ['Z']
  else
    let sign := if off < 0 then '-' else '+'
    let zmin := off.natAbs / 60
    sign :: (pad2 (zmin / 60) ++ ':' :: pad2 (zmin % 60))

/-- `t.Format(time.RFC3339)` (character list). -/
def fmtRFC3339List (t : GoTime) : List Char :=
  pad4 t.year ++ '-' :: pad2 t.month ++ '-' :: pad2 t.day
    ++ 'T' :: pad2 t.hour ++ ':' :: pad2 t.minute ++ ':' :: pad2 t.second
    ++ fmtOffset t.offset

/-- `t.Format(time.RFC3339)`. -/
def fmtRFC3339 (t : GoTime) : String := ⟨fmtRFC3339List t⟩

/-- Up to nine fraction digits with trailing zeros removed. -/
def trimZeros (ds : List Char) : List Char :=
  (ds.reverse.dropWhile (fun c => c = '0')).reverse

/-- The nine digits of a nanosecond count. -/
def pad9 (n : Nat) : List Char :=
  [digitChar (n / 100000000 % 10), digitChar (n / 10000000 % 10),
   digitChar (n / 1000000 % 10), digitChar (n / 100000 % 10),
   digitChar (n / 10000 % 10), digitChar (n / 1000 % 10),
   digitChar (n / 100 % 10), digitChar (n / 10 % 10), digitChar (n % 10)]

/-- Go's `.999999999` fraction rendering: nothing when the nanosecond
count is zero, else a point and the digits with trailing zeros removed. -/
def fmtFrac (ns : Nat) : List Char :=
  if ns = 0 then [] else '.' :: trimZeros (pad9 ns)

/-- `t.Format(time.RFC3339Nano)` (character list): what
`encoding/json` emits for a `time.Time` field. -/
def fmtNanoList (t : GoTime) : List Char :=
  pad4 t.year ++ '-' :: pad2 t.month ++ '-' :: pad2 t.day
    ++ 'T' :: pad2 t.hour ++ ':' :: pad2 t.minute ++ ':' :: pad2 t.second
    ++ fmtFrac t.nsec ++ fmtOffset t.offset

/-- The timestamp text serialized into JSON responses for a
`time.Time` value. -/
def jsonTimestamp (t : GoTime) : String := ⟨fmtNanoList t⟩

/-- `models.Event` (the identifier as its string form, `uuid.Nil` as
`""`, the zero `CreatedAt` as `none`). -/
structure Event where
  ID : String
  Title : String
  Description : Option String
  StartTime : GoTime
  EndTime : GoTime
  CreatedAt : Option GoTime
deriving DecidableEq, Repr

/-- A persisted row of the `events` table (timestamps as stored text). -/
structure Row where
  id : String
  title : String
  description : Option String
  start_time : String
  end_time : String
  created_at : String
deriving DecidableEq, Repr

/-- The `events` table, in insertion order. -/
abbrev Store := List Row

/-- Failure kinds surfaced by the store operations: the engine's
distinct constraint violations, the no-rows outcome, and a stored
timestamp that fails to re-parse. -/
inductive DBErr where
  | duplicateID
  | checkViolation
  | notFound
  | parseError
deriving DecidableEq, Repr

/-- The event actually written by `InsertEvent`: the generated id when
the event carries none, and `time.Now()` as `created_at` when unset. -/
def preparedEvent (freshId : String) (now : GoTime) (e : Event) : Event :=
  { e with
    ID := if e.ID = "" then freshId else e.ID
    CreatedAt := if e.CreatedAt = none then some now else e.CreatedAt }

/-- The row bound by `InsertEvent`: timestamps via `Format(time.RFC3339)`. -/
def rowOfEvent (e : Event) : Row :=
  { id := e.ID, title := e.Title, description := e.Description,
    start_time := fmtRFC3339 e.StartTime,
    end_time := fmtRFC3339 e.EndTime,
    created_at := fmtRFC3339 (e.CreatedAt.getD zeroTime) }

/-- `repository.InsertEvent`: defaults the id and `created_at`, then
executes the INSERT, which the engine rejects on a
`CHECK(length(title) <= 100)` violation (SQLite `length()` counts
characters of a text value) or a primary-key collision. -/
def InsertEvent (freshId : String) (now : GoTime) (st : Store) (e : Event) :
    Except DBErr (Store × Event) :=
  let e2 := preparedEvent freshId now e
  let row := rowOfEvent e2
  if MaxTitleLength < row.title.length then .error .checkViolation
  else if st.any (fun r => r.id = row.id) then .error .duplicateID
  else .ok (st ++ [row], e2)

/-- Parsing a fetched row back into an entity: `time.Parse(time.RFC3339, _)`
on the three stored timestamps. -/
def rowToEvent (r : Row) : Option Event := do
  let s ← pRFC3339 r.start_time.data
  let e ← pRFC3339 r.end_time.data
  let c ← pRFC3339 r.created_at.data
  pure { ID := r.id, Title := r.title, Description := r.description,
         StartTime := s, EndTime := e, CreatedAt := some c }

/-- `repository.GetEventByID`: `WHERE id = ?`, `sql.ErrNoRows` as
`notFound`, then the row re-parsed. -/
def GetEventByID (st : Store) (id : String) : Except DBErr Event :=
  match st.find? (fun r => r.id = id) with
  | none => .error .notFound
  | some r =>
    match rowToEvent r with
    | none => .error .parseError
    | some ev => .ok ev

/-- SQLite BINARY collation on text: byte-wise comparison (code-point
order coincides with UTF-8 byte order). -/
def charsLe : List Char → List Char → Bool
  | [], _ => true
  | _ :: _, [] => false
  | a :: as, b :: bs =>
    if a.toNat < b.toNat then true
    else if b.toNat < a.toNat then false
    else charsLe as bs

/-- `ORDER BY start_time ASC` comparison of two rows: BINARY comparison
of the stored text. -/
def rowLe (a b : Row) : Prop := charsLe a.start_time.data b.start_time.data = true

instance : DecidableRel rowLe := fun a b =>
  inferInstanceAs (Decidable (charsLe a.start_time.data b.start_time.data = true))

/-- Scanning and re-parsing the rows of a result set in order; the
first failing row aborts with an error. -/
def rowsToEvents : List Row → Except DBErr (List Event)
  | [] => .ok []
  | r :: rs =>
    match rowToEvent r with
    | none => .error .parseError
    | some e =>
      match rowsToEvents rs with
      | .error err => .error err
      | .ok es => .ok (e :: es)

/-- `repository.GetAllEvents`: the full scan ordered by the stored
`start_time` text, every row re-parsed. -/
def GetAllEvents (st : Store) : Except DBErr (List Event) :=
  rowsToEvents (List.insertionSort rowLe st)

/-- The row produced by the UPDATE statement's SET list (id and
`created_at` untouched). -/
def updRow (e : Event) (r : Row) : Row :=
  { r with
    title := e.Title
    description := e.Description
    start_time := fmtRFC3339 e.StartTime
    end_time := fmtRFC3339 e.EndTime }

/-- `repository.UpdateEvent`: `UPDATE ... WHERE id = ?`; a matched row
updated to a title of more than 100 characters (SQLite `length()`
counts characters) violates the CHECK constraint; zero affected rows
is reported as not found. -/
def UpdateEvent (st : Store) (e : Event) : Except DBErr Store :=
  if (st.filter (fun r => r.id = e.ID)).length = 0 then .error .notFound
  else if MaxTitleLength < e.Title.length then .error .checkViolation
  else .ok (st.map (fun r => if r.id = e.ID then updRow e r else r))

/-- `repository.DeleteEvent`: `DELETE FROM events WHERE id = ?`; zero
affected rows is reported as not found. -/
def DeleteEvent (st : Store) (id : String) : Except DBErr Store :=
  if (st.filter (fun r => ¬ r.id = id)).length = st.length then .error .notFound
  else .ok (st.filter (fun r => ¬ r.id = id))

/-- The entity built by `service.createEvent` after validation: the two
`ParseTimestamp` results with discarded errors (a failed parse would
leave the zero time), no id, no `created_at`. -/
def builtEvent (req : CreateEventRequest) : Event :=
  { ID := "", Title := req.Title, Description := req.Description,
    StartTime := (ParseTimestamp req.StartTime).getD zeroTime,
    EndTime := (ParseTimestamp req.EndTime).getD zeroTime,
    CreatedAt := none }

/-! ### Round-trip lemmas: formatting then parsing recovers the fields -/

theorem digitVal_digitChar : ∀ d < 10, digitVal (digitChar d) = some d := by decide

theorem parse2_pad2 (n : Nat) (h : n < 100) (r : List Char) :
    parse2 (pad2 n ++ r) = some (n, r) := by
  have h1 : n / 10 < 10 := by omega
  have h2 : n % 10 < 10 := by omega
  simp [pad2, parse2, digitVal_digitChar _ h1, digitVal_digitChar _ h2]
  omega

theorem parse4_pad4 (n : Nat) (h : n < 10000) (r : List Char) :
    parse4 (pad4 n ++ r) = some (n, r) := by
  have h1 : n / 1000 < 10 := by omega
  have h2 : n / 100 % 10 < 10 := by omega
  have h3 : n / 10 % 10 < 10 := by omega
  have h4 : n % 10 < 10 := by omega
  simp [pad4, parse4, digitVal_digitChar _ h1, digitVal_digitChar _ h2,
        digitVal_digitChar _ h3, digitVal_digitChar _ h4]
  omega

theorem parseFlex2_pad2 (n : Nat) (h : n < 100) (r : List Char) :
    parseFlex2 (pad2 n ++ r) = some (n, r) := by
  have h1 : n / 10 < 10 := by omega
  have h2 : n % 10 < 10 := by omega
  simp [pad2, parseFlex2, digitVal_digitChar _ h1, digitVal_digitChar _ h2]
  omega

theorem expectChar_cons (c : Char) (r : List Char) :
    expectChar c (c :: r) = some r := by
  simp [expectChar]



theorem daysInMonth_le (y m : Nat) : daysInMonth y m ≤ 31 := by
  unfold daysInMonth
  split_ifs <;> omega

theorem parseOffset_plus (a b : Nat) (ha : a < 100) (hb : b < 100) (r : List Char) :
    parseOffset ('+' :: (pad2 a ++ (':' :: (pad2 b ++ r))))
      = some (((a * 3600 + b * 60 : Nat) : Int), r) := by
  simp [parseOffset, parse2_pad2 a ha, parse2_pad2 b hb, expectChar_cons]

theorem parseOffset_minus (a b : Nat) (ha : a < 100) (hb : b < 100) (r : List Char) :
    parseOffset ('-' :: (pad2 a ++ (':' :: (pad2 b ++ r))))
      = some (-((a * 3600 + b * 60 : Nat) : Int), r) := by
  simp [parseOffset, parse2_pad2 a ha, parse2_pad2 b hb, expectChar_cons]

theorem parseOffset_fmtOffset (off : Int) (h60 : off % 60 = 0)
    (hb : off.natAbs < 360000) (r : List Char) :
    parseOffset (fmtOffset off ++ r) = some (off, r) := by
  by_cases h0 : off = 0
  · subst h0
    simp [fmtOffset, parseOffset]
  · have ha : off.natAbs / 60 / 60 < 100 := by omega
    have hm : off.natAbs / 60 % 60 < 100 := by omega
    have harith :
        ((off.natAbs / 60 / 60 * 3600 + off.natAbs / 60 % 60 * 60 : Nat) : Int)
          = (off.natAbs : Int) := by
      have h60n : off.natAbs % 60 = 0 := by omega
      omega
    by_cases hneg : off < 0
    · have hshape :
          fmtOffset off ++ r
            = '-' :: (pad2 (off.natAbs / 60 / 60)
                ++ (':' :: (pad2 (off.natAbs / 60 % 60) ++ r))) := by
        simp [fmtOffset, if_neg h0, if_pos hneg, List.append_assoc, List.cons_append]
      rw [hshape, parseOffset_minus _ _ ha hm, harith]
      have hoffeq : -(off.natAbs : Int) = off := by omega
      rw [hoffeq]
    · have hshape :
          fmtOffset off ++ r
            = '+' :: (pad2 (off.natAbs / 60 / 60)
                ++ (':' :: (pad2 (off.natAbs / 60 % 60) ++ r))) := by
        simp [fmtOffset, if_neg h0, if_neg hneg, List.append_assoc, List.cons_append]
      rw [hshape, parseOffset_plus _ _ ha hm, harith]
      have hoffeq : (off.natAbs : Int) = off := by omega
      rw [hoffeq]

theorem parseCore_rt (sep : Char) (y mo d h mi s : Nat) (r : List Char)
    (hy : y < 10000) (hmo1 : 1 ≤ mo) (hmo2 : mo ≤ 12) (hd1 : 1 ≤ d)
    (hd2 : d ≤ daysInMonth y mo) (hh : h ≤ 23) (hmi : mi ≤ 59) (hs : s ≤ 59) :
    parseCore sep (pad4 y ++ ('-' :: (pad2 mo ++ ('-' :: (pad2 d
      ++ (sep :: (pad2 h ++ (':' :: (pad2 mi ++ (':' :: (pad2 s ++ r)))))))))))
      = some (y, mo, d, h, mi, s, r) := by
  have hdm := daysInMonth_le y mo
  simp only [parseCore]
  rw [parse4_pad4 y hy]
  simp only [Option.bind_eq_bind, Option.some_bind]
  rw [expectChar_cons]
  simp only [Option.bind_eq_bind, Option.some_bind]
  rw [parse2_pad2 mo (by omega : mo < 100)]
  simp only [Option.bind_eq_bind, Option.some_bind]
  rw [expectChar_cons]
  simp only [Option.bind_eq_bind, Option.some_bind]
  rw [parse2_pad2 d (by omega : d < 100)]
  simp only [Option.bind_eq_bind, Option.some_bind]
  rw [expectChar_cons]
  simp only [Option.bind_eq_bind, Option.some_bind]
  rw [parseFlex2_pad2 h (by omega : h < 100)]
  simp only [Option.bind_eq_bind, Option.some_bind]
  rw [expectChar_cons]
  simp only [Option.bind_eq_bind, Option.some_bind]
  rw [parse2_pad2 mi (by omega : mi < 100)]
  simp only [Option.bind_eq_bind, Option.some_bind]
  rw [expectChar_cons]
  simp only [Option.bind_eq_bind, Option.some_bind]
  rw [parse2_pad2 s (by omega : s < 100)]
  simp only [Option.bind_eq_bind, Option.some_bind]
  rw [if_pos ⟨hmo1, hmo2, hd1, hd2, hh, hmi, hs⟩]
  rfl

/-- The field ranges every successfully parsed timestamp satisfies
(the offset bound is `99 * 3600 + 99 * 60` from the two digit pairs). -/
def ValidTime (t : GoTime) : Prop :=
  t.year ≤ 9999 ∧ 1 ≤ t.month ∧ t.month ≤ 12 ∧ 1 ≤ t.day
    ∧ t.day ≤ daysInMonth t.year t.month ∧ t.hour ≤ 23 ∧ t.minute ≤ 59
    ∧ t.second ≤ 59 ∧ t.nsec < 1000000000
    ∧ t.offset % 60 = 0 ∧ t.offset.natAbs ≤ 362340

theorem parseFracOpt_fmtOffset (off : Int) :
    parseFracOpt (fmtOffset off) = (0, fmtOffset off) := by
  unfold fmtOffset
  by_cases h0 : off = 0
  · simp [h0, parseFracOpt]
  · by_cases hneg : off < 0
    · simp [h0, hneg, parseFracOpt]
    · simp [h0, hneg, parseFracOpt]

/-- A stored `Format(time.RFC3339)` text parses back to the same civil
fields and offset with the nanoseconds dropped (the fraction is not
representable in this layout). Offsets of canonical shape (at most
`±99:59`) are required for the two-digit rendering to be exact. -/
theorem pRFC3339_fmtRFC3339 (t : GoTime) (hv : ValidTime t)
    (hoff : t.offset.natAbs < 360000) :
    pRFC3339 (fmtRFC3339 t).data = some { t with nsec := 0 } := by
  obtain ⟨y, mo, d, h, mi, s, ns, off⟩ := t
  simp only [ValidTime] at hv
  dsimp only at hv hoff
  obtain ⟨hy, hmo1, hmo2, hd1, hd2, hh, hmi, hs, hns, h60, hob⟩ := hv
  have hshape : (fmtRFC3339 ⟨y, mo, d, h, mi, s, ns, off⟩).data
      = pad4 y ++ ('-' :: (pad2 mo ++ ('-' :: (pad2 d
        ++ ('T' :: (pad2 h ++ (':' :: (pad2 mi ++ (':' :: (pad2 s ++ fmtOffset off)))))))))) := by
    show fmtRFC3339List ⟨y, mo, d, h, mi, s, ns, off⟩ = _
    simp [fmtRFC3339List, List.append_assoc, List.cons_append]
  have hoff0 : parseOffset (fmtOffset off) = some (off, []) := by
    have h2 := parseOffset_fmtOffset off h60 hoff []
    simpa using h2
  simp only [pRFC3339]
  rw [hshape, parseCore_rt 'T' y mo d h mi s (fmtOffset off) (by omega) hmo1 hmo2 hd1 hd2 hh hmi hs]
  simp only [Option.bind_eq_bind, Option.some_bind, parseFracOpt_fmtOffset off, hoff0]
  rfl

/-! ### Bounds satisfied by every successful parse -/

theorem digitVal_lt {c : Char} {d : Nat} (h : digitVal c = some d) : d < 10 := by
  unfold digitVal at h
  split at h
  · injection h with h2
    omega
  · exact absurd h (by simp)

theorem parse2_le {cs : List Char} {n : Nat} {r : List Char}
    (h : parse2 cs = some (n, r)) : n ≤ 99 := by
  unfold parse2 at h
  split at h
  · simp only [Option.bind_eq_bind, Option.bind_eq_some] at h
    obtain ⟨x, hx, y, hy, hp⟩ := h
    have := digitVal_lt hx
    have := digitVal_lt hy
    injection hp with hp
    injection hp with hp1 hp2
    omega
  · exact absurd h (by simp)

theorem parse4_le {cs : List Char} {n : Nat} {r : List Char}
    (h : parse4 cs = some (n, r)) : n ≤ 9999 := by
  unfold parse4 at h
  split at h
  · simp only [Option.bind_eq_bind, Option.bind_eq_some] at h
    obtain ⟨x, hx, y, hy, z, hz, w, hw, hp⟩ := h
    have := digitVal_lt hx
    have := digitVal_lt hy
    have := digitVal_lt hz
    have := digitVal_lt hw
    injection hp with hp
    injection hp with hp1 hp2
    omega
  · exact absurd h (by simp)

theorem parseOffset_props {cs : List Char} {off : Int} {r : List Char}
    (h : parseOffset cs = some (off, r)) :
    off % 60 = 0 ∧ off.natAbs ≤ 362340 := by
  unfold parseOffset at h
  split at h
  · exact absurd h (by simp)
  · split_ifs at h with hz hpm hsign
    · injection h with h2
      injection h2 with h21 h22
      omega
    · simp only [Option.bind_eq_bind, Option.bind_eq_some] at h
      obtain ⟨⟨a, cs1⟩, ha, cs2, hc, ⟨b, cs3⟩, hb, hp⟩ := h
      have hal := parse2_le ha
      have hbl := parse2_le hb
      injection hp with hp
      injection hp with hp1 hp2
      subst hp1
      dsimp only
      omega
    · simp only [Option.bind_eq_bind, Option.bind_eq_some] at h
      obtain ⟨⟨a, cs1⟩, ha, cs2, hc, ⟨b, cs3⟩, hb, hp⟩ := h
      have hal := parse2_le ha
      have hbl := parse2_le hb
      injection hp with hp
      injection hp with hp1 hp2
      subst hp1
      dsimp only
      omega

theorem parseFlex2_le {cs : List Char} {n : Nat} {r : List Char}
    (h : parseFlex2 cs = some (n, r)) : n ≤ 99 := by
  unfold parseFlex2 at h
  split at h
  · split at h
    · exact absurd h (by simp)
    · rename_i x b rest2 hx
      split at h
      · rename_i y hy
        injection h with h2
        injection h2 with h21 h22
        have := digitVal_lt hx
        have := digitVal_lt hy
        omega
      · injection h with h2
        injection h2 with h21 h22
        have := digitVal_lt hx
        omega
    · rename_i x hx
      injection h with h2
      injection h2 with h21 h22
      have := digitVal_lt hx
      omega
  · exact absurd h (by simp)

theorem parseCore_props {sep : Char} {cs : List Char}
    {y mo d h mi s : Nat} {r : List Char}
    (hp : parseCore sep cs = some (y, mo, d, h, mi, s, r)) :
    y ≤ 9999 ∧ 1 ≤ mo ∧ mo ≤ 12 ∧ 1 ≤ d ∧ d ≤ daysInMonth y mo
      ∧ h ≤ 23 ∧ mi ≤ 59 ∧ s ≤ 59 := by
  unfold parseCore at hp
  simp only [Option.bind_eq_bind, Option.bind_eq_some] at hp
  obtain ⟨⟨y1, cs1⟩, hy1, cs2, hcs2, ⟨mo1, cs3⟩, hmo1, cs4, hcs4, ⟨d1, cs5⟩, hd1,
    cs6, hcs6, ⟨h1, cs7⟩, hh1, cs8, hcs8, ⟨mi1, cs9⟩, hmi1, cs10, hcs10,
    ⟨s1, cs11⟩, hs1, hfin⟩ := hp
  have hyl := parse4_le hy1
  split at hfin
  · rename_i hcond
    simp only [Option.pure_def, Option.some.injEq, Prod.mk.injEq] at hfin
    obtain ⟨e1, e2, e3, e4, e5, e6, e7⟩ := hfin
    subst e1
    subst e2
    subst e3
    subst e4
    subst e5
    subst e6
    exact ⟨hyl, hcond.1, hcond.2.1, hcond.2.2.1, hcond.2.2.2.1,
      hcond.2.2.2.2.1, hcond.2.2.2.2.2.1, hcond.2.2.2.2.2.2⟩
  · exact absurd hfin (by simp)

theorem takeDigits_lt : ∀ cs : List Char, ∀ d ∈ (takeDigits cs).1, d < 10 := by
  intro cs
  induction cs with
  | nil => simp [takeDigits]
  | cons c rest ih =>
    rcases hdc : digitVal c with _ | d0
    · simp [takeDigits, hdc]
    · rcases htd : takeDigits rest with ⟨ds, r⟩
      simp only [takeDigits, hdc, htd]
      intro d hd
      rcases List.mem_cons.mp hd with h1 | h2
      · subst h1
        exact digitVal_lt hdc
      · exact ih d (by rw [htd]; exact h2)

theorem foldl_digits_lt (ds : List Nat) (hds : ∀ d ∈ ds, d < 10) :
    ∀ acc B : Nat, acc < B →
      ds.foldl (fun a d => 10 * a + d) acc < B * 10 ^ ds.length := by
  induction ds with
  | nil => intro acc B h; simpa using h
  | cons d ds ih =>
    intro acc B h
    have hd : d < 10 := hds d (by simp)
    have step : 10 * acc + d < 10 * B := by omega
    have hrec := ih (fun x hx => hds x (by simp [hx])) (10 * acc + d) (10 * B) step
    calc (d :: ds).foldl (fun a d => 10 * a + d) acc
        = ds.foldl (fun a d => 10 * a + d) (10 * acc + d) := by simp
      _ < (10 * B) * 10 ^ ds.length := hrec
      _ = B * 10 ^ (d :: ds).length := by
          simp [List.length_cons, pow_succ]
          ring

theorem nsecOfDigits_lt (ds : List Nat) (hds : ∀ d ∈ ds, d < 10) :
    nsecOfDigits ds < 1000000000 := by
  have hmem : ∀ d ∈ ds.take 9, d < 10 := fun d hd => hds d (List.take_subset 9 ds hd)
  have hlen : (ds.take 9).length = min 9 ds.length := List.length_take 9 ds
  have hfl := foldl_digits_lt (ds.take 9) hmem 0 1 (by omega)
  unfold nsecOfDigits
  have hmin : min ds.length 9 = min 9 ds.length := Nat.min_comm _ _
  have hle : min 9 ds.length ≤ 9 := Nat.min_le_left _ _
  have key : (ds.take 9).foldl (fun a d => 10 * a + d) 0 * 10 ^ (9 - min ds.length 9)
      < 10 ^ (min 9 ds.length) * 10 ^ (9 - min 9 ds.length) := by
    rw [hmin]
    have h1 : (ds.take 9).foldl (fun a d => 10 * a + d) 0 < 10 ^ (min 9 ds.length) := by
      calc (ds.take 9).foldl (fun a d => 10 * a + d) 0
          < 1 * 10 ^ (ds.take 9).length := hfl
        _ = 10 ^ (min 9 ds.length) := by rw [hlen]; ring
    have h2 : (0 : Nat) < 10 ^ (9 - min 9 ds.length) := Nat.pos_pow_of_pos _ (by omega)
    exact Nat.mul_lt_mul_of_lt_of_le h1 (le_refl _) h2
  calc (ds.take 9).foldl (fun a d => 10 * a + d) 0 * 10 ^ (9 - min ds.length 9)
      < 10 ^ (min 9 ds.length) * 10 ^ (9 - min 9 ds.length) := key
    _ = 10 ^ 9 := by rw [← pow_add]; congr 1; omega
    _ = 1000000000 := by norm_num

theorem parseFracOpt_lt (cs : List Char) : (parseFracOpt cs).1 < 1000000000 := by
  unfold parseFracOpt
  rcases cs with _ | ⟨c, rest⟩
  · simp
  · dsimp only
    split_ifs with hcp
    · rcases rest with _ | ⟨d, rest2⟩
      · simp
      · rcases hdc : digitVal d with _ | d0
        · simp [hdc]
        · rcases htd : takeDigits (d :: rest2) with ⟨ds, r⟩
          simp only [hdc, htd]
          have := nsecOfDigits_lt ds (by
            intro x hx
            exact takeDigits_lt (d :: rest2) x (by rw [htd]; exact hx))
          simpa using this
    · simp

theorem parseDigitsAcc_lt : ∀ (k acc : Nat) (cs : List Char) (n : Nat) (r : List Char),
    parseDigitsAcc k acc cs = some (n, r) → n < (acc + 1) * 10 ^ k := by
  intro k
  induction k with
  | zero =>
    intro acc cs n r h
    unfold parseDigitsAcc at h
    injection h with h2
    injection h2 with h21 h22
    omega
  | succ k ih =>
    intro acc cs n r h
    unfold parseDigitsAcc at h
    rcases cs with _ | ⟨c, rest⟩
    · exact absurd h (by simp)
    · simp only [Option.bind_eq_bind, Option.bind_eq_some] at h
      obtain ⟨d, hd, hrec⟩ := h
      have hd10 := digitVal_lt hd
      have := ih (10 * acc + d) rest n r hrec
      calc n < (10 * acc + d + 1) * 10 ^ k := this
        _ ≤ ((acc + 1) * 10) * 10 ^ k := by
            have : 10 * acc + d + 1 ≤ (acc + 1) * 10 := by omega
            exact Nat.mul_le_mul_right _ this
        _ = (acc + 1) * 10 ^ (k + 1) := by rw [pow_succ]; ring

theorem parseFracFixed_lt {k : Nat} {cs : List Char} {n : Nat} {r : List Char}
    (hk : k ≤ 9) (h : parseFracFixed k cs = some (n, r)) : n < 1000000000 := by
  unfold parseFracFixed at h
  rcases cs with _ | ⟨c, rest⟩
  · exact absurd h (by simp)
  · dsimp only at h
    split_ifs at h with hcp
    · simp only [Option.bind_eq_bind, Option.bind_eq_some] at h
      obtain ⟨⟨v, cs2⟩, hv, hp⟩ := h
      have hvl := parseDigitsAcc_lt k 0 rest v cs2 hv
      injection hp with hp
      injection hp with hp1 hp2
      subst hp1
      dsimp only
      calc v * 10 ^ (9 - k) < (0 + 1) * 10 ^ k * 10 ^ (9 - k) :=
            Nat.mul_lt_mul_of_lt_of_le hvl (le_refl _) (Nat.pos_pow_of_pos _ (by omega))
        _ = 10 ^ 9 := by
            rw [show (0 + 1) * 10 ^ k = 10 ^ k by omega, ← pow_add]
            congr 1
            omega
        _ = 1000000000 := by norm_num

theorem pRFC3339_valid {cs : List Char} {t : GoTime}
    (h : pRFC3339 cs = some t) : ValidTime t := by
  unfold pRFC3339 at h
  simp only [Option.bind_eq_bind, Option.bind_eq_some] at h
  obtain ⟨⟨y, mo, d, hh, mi, s, cs1⟩, hcore, hrest⟩ := h
  have hc := parseCore_props hcore
  rcases hfr : parseFracOpt cs1 with ⟨ns, cs2⟩
  rw [hfr] at hrest
  have hns : ns < 1000000000 := by
    have := parseFracOpt_lt cs1
    rw [hfr] at this
    exact this
  simp only [Option.bind_eq_bind, Option.bind_eq_some] at hrest
  obtain ⟨⟨off, cs3⟩, hoffp, hfin⟩ := hrest
  have ho := parseOffset_props hoffp
  split at hfin
  · injection hfin with h2
    subst h2
    refine ⟨?_, ?_, ?_, ?_, ?_, ?_, ?_, ?_, ?_, ?_, ?_⟩ <;>
      first
        | exact hc.1
        | exact hc.2.1
        | exact hc.2.2.1
        | exact hc.2.2.2.1
        | exact hc.2.2.2.2.1
        | exact hc.2.2.2.2.2.1
        | exact hc.2.2.2.2.2.2.1
        | exact hc.2.2.2.2.2.2.2
        | exact ho.1
        | exact ho.2
        | exact hns
  · exact absurd hfin (by simp)

theorem pRFC3339Nano_valid {cs : List Char} {t : GoTime}
    (h : pRFC3339Nano cs = some t) : ValidTime t := by
  unfold pRFC3339Nano at h
  simp only [Option.bind_eq_bind, Option.bind_eq_some] at h
  obtain ⟨⟨y, mo, d, hh, mi, s, cs1⟩, hcore, hrest⟩ := h
  have hc := parseCore_props hcore
  rcases hfr : parseFracOpt cs1 with ⟨ns, cs2⟩
  rw [hfr] at hrest
  have hns : ns < 1000000000 := by
    have := parseFracOpt_lt cs1
    rw [hfr] at this
    exact this
  simp only [Option.bind_eq_bind, Option.bind_eq_some] at hrest
  obtain ⟨⟨off, cs3⟩, hoffp, hfin⟩ := hrest
  have ho := parseOffset_props hoffp
  split at hfin
  · injection hfin with h2
    subst h2
    refine ⟨?_, ?_, ?_, ?_, ?_, ?_, ?_, ?_, ?_, ?_, ?_⟩ <;>
      first
        | exact hc.1
        | exact hc.2.1
        | exact hc.2.2.1
        | exact hc.2.2.2.1
        | exact hc.2.2.2.2.1
        | exact hc.2.2.2.2.2.1
        | exact hc.2.2.2.2.2.2.1
        | exact hc.2.2.2.2.2.2.2
        | exact ho.1
        | exact ho.2
        | exact hns
  · exact absurd hfin (by simp)

theorem pNoZone_valid {sep : Char} {cs : List Char} {t : GoTime}
    (h : (do
      let (y, mo, d, hh, mi, s, cs) ← parseCore sep cs
      let (ns, cs) := parseFracOpt cs
      if cs = [] then pure (⟨y, mo, d, hh, mi, s, ns, 0⟩ : GoTime) else none) = some t) :
    ValidTime t ∧ t.offset = 0 := by
  simp only [Option.bind_eq_bind, Option.bind_eq_some] at h
  obtain ⟨⟨y, mo, d, hh, mi, s, cs1⟩, hcore, hfin⟩ := h
  have hc := parseCore_props hcore
  rcases hfr : parseFracOpt cs1 with ⟨ns, cs2⟩
  rw [hfr] at hfin
  have hns : ns < 1000000000 := by
    have := parseFracOpt_lt cs1
    rw [hfr] at this
    exact this
  split at hfin
  · injection hfin with h2
    subst h2
    refine ⟨⟨?_, ?_, ?_, ?_, ?_, ?_, ?_, ?_, ?_, ?_, ?_⟩, rfl⟩ <;>
      first
        | exact hc.1
        | exact hc.2.1
        | exact hc.2.2.1
        | exact hc.2.2.2.1
        | exact hc.2.2.2.2.1
        | exact hc.2.2.2.2.2.1
        | exact hc.2.2.2.2.2.2.1
        | exact hc.2.2.2.2.2.2.2
        | exact hns
        | simp
  · exact absurd hfin (by simp)

theorem pFracZ_valid {k : Nat} {cs : List Char} {t : GoTime} (hk : k ≤ 9)
    (h : pFracZ k cs = some t) : ValidTime t := by
  unfold pFracZ at h
  simp only [Option.bind_eq_bind, Option.bind_eq_some] at h
  obtain ⟨⟨y, mo, d, hh, mi, s, cs1⟩, hcore, ⟨ns, cs2⟩, hfr, cs3, hz, hfin⟩ := h
  have hc := parseCore_props hcore
  have hns := parseFracFixed_lt hk hfr
  split at hfin
  · injection hfin with h2
    subst h2
    refine ⟨?_, ?_, ?_, ?_, ?_, ?_, ?_, ?_, ?_, ?_, ?_⟩ <;>
      first
        | exact hc.1
        | exact hc.2.1
        | exact hc.2.2.1
        | exact hc.2.2.2.1
        | exact hc.2.2.2.2.1
        | exact hc.2.2.2.2.2.1
        | exact hc.2.2.2.2.2.2.1
        | exact hc.2.2.2.2.2.2.2
        | exact hns
        | simp
  · exact absurd hfin (by simp)

/-- Every timestamp `utils.ParseTimestamp` accepts has in-range fields. -/
theorem ParseTimestamp_valid {s : String} {t : GoTime}
    (h : ParseTimestamp s = some t) : ValidTime t := by
  unfold ParseTimestamp timeFormats at h
  simp only [tryFormats] at h
  rcases h1 : pRFC3339 s.data with _ | t1
  · rw [h1] at h
    rcases h2 : pRFC3339Nano s.data with _ | t2
    · rw [h2] at h
      rcases h3 : pNoZoneT s.data with _ | t3
      · rw [h3] at h
        rcases h4 : pNoZoneSpace s.data with _ | t4
        · rw [h4] at h
          rcases h5 : pFracZ 3 s.data with _ | t5
          · rw [h5] at h
            rcases h6 : pFracZ 6 s.data with _ | t6
            · rw [h6] at h
              exact absurd h (by simp)
            · rw [h6] at h
              injection h with h7
              subst h7
              exact pFracZ_valid (by omega) h6
          · rw [h5] at h
            injection h with h7
            subst h7
            exact pFracZ_valid (by omega) h5
        · rw [h4] at h
          injection h with h7
          subst h7
          exact (pNoZone_valid (h := h4)).1
      · rw [h3] at h
        injection h with h7
        subst h7
        exact (pNoZone_valid (h := h3)).1
    · rw [h2] at h
      injection h with h7
      subst h7
      exact pRFC3339Nano_valid h2
  · rw [h1] at h
    injection h with h7
    subst h7
    exact pRFC3339_valid h1

/-! ### First-success characterization of the format loop -/

theorem tryFormats_eq_none_iff :
    ∀ (fs : List (List Char → Option GoTime)) (cs : List Char),
      tryFormats fs cs = none ↔ ∀ f ∈ fs, f cs = none := by
  intro fs
  induction fs with
  | nil => intro cs; simp [tryFormats]
  | cons f fs ih =>
    intro cs
    rcases hf : f cs with _ | t0
    · simp [tryFormats, hf, ih cs]
    · simp [tryFormats, hf]

theorem tryFormats_eq_some_iff :
    ∀ (fs : List (List Char → Option GoTime)) (cs : List Char) (t : GoTime),
      tryFormats fs cs = some t ↔
        ∃ i : Nat, ∃ f, fs[i]? = some f ∧ f cs = some t
          ∧ ∀ j, j < i → ∀ g, fs[j]? = some g → g cs = none := by
  intro fs
  induction fs with
  | nil =>
    intro cs t
    simp [tryFormats]
  | cons f fs ih =>
    intro cs t
    constructor
    · intro h
      rcases hf : f cs with _ | t0
      · have h2 : tryFormats fs cs = some t := by
          rw [tryFormats, hf] at h
          exact h
        obtain ⟨i, g, hg, hgcs, hprev⟩ := (ih cs t).mp h2
        refine ⟨i + 1, g, by simpa using hg, hgcs, ?_⟩
        intro j hj g2 hg2
        rcases j with _ | j2
        · have hg2f : g2 = f := by
            simp only [List.getElem?_cons_zero, Option.some.injEq] at hg2
            exact hg2.symm
          rw [hg2f]
          exact hf
        · have hlt : j2 < i := by omega
          exact hprev j2 hlt g2 (by simpa using hg2)
      · have ht : t0 = t := by
          rw [tryFormats, hf] at h
          injection h
        refine ⟨0, f, by simp, by rw [hf, ht], ?_⟩
        intro j hj
        exact absurd hj (by omega)
    · intro hex
      obtain ⟨i, g, hg, hgcs, hprev⟩ := hex
      rcases hf : f cs with _ | t0
      · rcases i with _ | i2
        · have hg2f : g = f := by
            simp only [List.getElem?_cons_zero, Option.some.injEq] at hg
            exact hg.symm
          rw [hg2f, hf] at hgcs
          exact absurd hgcs (by simp)
        · have h2 : tryFormats fs cs = some t := by
            refine (ih cs t).mpr ⟨i2, g, by simpa using hg, hgcs, ?_⟩
            intro j hj g2 hg2
            exact hprev (j + 1) (by omega) g2 (by simpa using hg2)
          rw [tryFormats, hf]
          exact h2
      · rcases i with _ | i2
        · have hg2f : g = f := by
            simp only [List.getElem?_cons_zero, Option.some.injEq] at hg
            exact hg.symm
          rw [hg2f, hf] at hgcs
          rw [tryFormats, hf]
          exact hgcs
        · have hnone := hprev 0 (by omega) f (by simp)
          rw [hf] at hnone
          exact absurd hnone (by simp)

/-! ### Validator characterization -/

/-- Full case analysis of `IsValid`: which error is reported for which
inputs, with the earlier checks negated in each later case. -/
theorem IsValid_spec (e : CreateEventRequest) :
    (IsValid e = some .TitleEmpty ↔ e.Title = "")
    ∧ (IsValid e = some .TitleTooLong
        ↔ (e.Title ≠ "" ∧ MaxTitleLength < e.Title.utf8ByteSize))
    ∧ (IsValid e = some .InvalidTimeFormat
        ↔ (e.Title ≠ "" ∧ e.Title.utf8ByteSize ≤ MaxTitleLength
            ∧ (ParseTimestamp e.StartTime = none
                ∨ ((ParseTimestamp e.StartTime).isSome
                    ∧ ParseTimestamp e.EndTime = none))))
    ∧ (IsValid e = some .EndTimeBeforeStart
        ↔ (e.Title ≠ "" ∧ e.Title.utf8ByteSize ≤ MaxTitleLength
            ∧ ∃ s en, ParseTimestamp e.StartTime = some s
                ∧ ParseTimestamp e.EndTime = some en ∧ goBefore en s = true))
    ∧ (IsValid e = none
        ↔ (e.Title ≠ "" ∧ e.Title.utf8ByteSize ≤ MaxTitleLength
            ∧ ∃ s en, ParseTimestamp e.StartTime = some s
                ∧ ParseTimestamp e.EndTime = some en ∧ goBefore en s = false)) := by
  by_cases hT : e.Title = ""
  · simp [IsValid, hT]
  · by_cases hL : MaxTitleLength < e.Title.utf8ByteSize
    · simp [IsValid, hT, hL]
    · rcases hps : ParseTimestamp e.StartTime with _ | s
      · simp [IsValid, hT, hL, hps, Nat.not_lt.mp hL]
      · rcases hpe : ParseTimestamp e.EndTime with _ | en
        · simp [IsValid, hT, hL, hps, hpe, Nat.not_lt.mp hL]
        · rcases hgb : goBefore en s with _ | _
          · simp [IsValid, hT, hL, hps, hpe, hgb, Nat.not_lt.mp hL]
          · simp [IsValid, hT, hL, hps, hpe, hgb, Nat.not_lt.mp hL]

/-! ### Claim theorems -/

/-- C1: for every creation request, `IsValid` returns exactly one error
kind, checked in this order — `TitleEmpty` iff the title is empty, else
`TitleTooLong` iff the title exceeds 100 bytes, else `InvalidTimeFormat`
iff either timestamp fails to parse, else `EndTimeBeforeStart` iff the
parsed end precedes the parsed start — and success iff none applies,
so only the first applicable error is ever returned. -/
theorem C1_validator_single_error_in_order (e : CreateEventRequest) :
    (IsValid e = some .TitleEmpty ↔ e.Title = "")
    ∧ (IsValid e = some .TitleTooLong
        ↔ (e.Title ≠ "" ∧ MaxTitleLength < e.Title.utf8ByteSize))
    ∧ (IsValid e = some .InvalidTimeFormat
        ↔ (e.Title ≠ "" ∧ e.Title.utf8ByteSize ≤ MaxTitleLength
            ∧ (ParseTimestamp e.StartTime = none
                ∨ ((ParseTimestamp e.StartTime).isSome
                    ∧ ParseTimestamp e.EndTime = none))))
    ∧ (IsValid e = some .EndTimeBeforeStart
        ↔ (e.Title ≠ "" ∧ e.Title.utf8ByteSize ≤ MaxTitleLength
            ∧ ∃ s en, ParseTimestamp e.StartTime = some s
                ∧ ParseTimestamp e.EndTime = some en ∧ goBefore en s = true))
    ∧ (IsValid e = none
        ↔ (e.Title ≠ "" ∧ e.Title.utf8ByteSize ≤ MaxTitleLength
            ∧ ∃ s en, ParseTimestamp e.StartTime = some s
                ∧ ParseTimestamp e.EndTime = some en ∧ goBefore en s = false)) :=
  IsValid_spec e

theorem C1_witness :
    IsValid ⟨"", none, "2026-01-16T09:00:00Z", "2026-01-16T10:00:00Z"⟩
      = some .TitleEmpty :=
  (C1_validator_single_error_in_order _).1.mpr rfl

/-- C2: `ParseTimestamp` attempts the six formats in order, returns the
result of the first format that parses successfully, and fails exactly
when every format fails. -/
theorem C2_parser_first_successful_format (s : String) :
    (∀ t, ParseTimestamp s = some t →
      ∃ i : Nat, ∃ f, timeFormats[i]? = some f ∧ f s.data = some t
        ∧ ∀ j, j < i → ∀ g, timeFormats[j]? = some g → g s.data = none)
    ∧ (∀ (i : Nat) (f : List Char → Option GoTime) (t : GoTime),
        timeFormats[i]? = some f → f s.data = some t →
        (∀ j, j < i → ∀ g, timeFormats[j]? = some g → g s.data = none) →
        ParseTimestamp s = some t)
    ∧ (ParseTimestamp s = none ↔ ∀ f ∈ timeFormats, f s.data = none) := by
  refine ⟨?_, ?_, ?_⟩
  · intro t ht
    exact (tryFormats_eq_some_iff timeFormats s.data t).mp ht
  · intro i f t hf hft hprev
    exact (tryFormats_eq_some_iff timeFormats s.data t).mpr ⟨i, f, hf, hft, hprev⟩
  · exact tryFormats_eq_none_iff timeFormats s.data

theorem C2_witness :
    ParseTimestamp "2026-01-16 09:00:00.5"
      = some ⟨2026, 1, 16, 9, 0, 0, 500000000, 0⟩ := by
  refine (C2_parser_first_successful_format _).2.1 3 pNoZoneSpace _ (by rfl) (by rfl) ?_
  intro j hj g hg
  interval_cases j
  · simp only [timeFormats, List.getElem?_cons_zero, Option.some.injEq] at hg
    rw [← hg]
    rfl
  · simp only [timeFormats, List.getElem?_cons_succ, List.getElem?_cons_zero,
      Option.some.injEq] at hg
    rw [← hg]
    rfl
  · simp only [timeFormats, List.getElem?_cons_succ, List.getElem?_cons_zero,
      Option.some.injEq] at hg
    rw [← hg]
    rfl

/-- C5: with parseable timestamps in order, a title of exactly 100
bytes is accepted while a longer title is rejected with `TitleTooLong`
(length is the raw byte count of the string as received, Go `len`). -/
theorem C5_title_boundary (e : CreateEventRequest) (s en : GoTime)
    (hps : ParseTimestamp e.StartTime = some s)
    (hpe : ParseTimestamp e.EndTime = some en)
    (hgb : goBefore en s = false) :
    (e.Title.utf8ByteSize = 100 → IsValid e = none)
    ∧ (100 < e.Title.utf8ByteSize → IsValid e = some .TitleTooLong) := by
  have hemp : ("" : String).utf8ByteSize = 0 := rfl
  constructor
  · intro h100
    refine (IsValid_spec e).2.2.2.2.mpr
      ⟨?_, by simp only [MaxTitleLength]; omega, s, en, hps, hpe, hgb⟩
    intro hempty
    rw [hempty, hemp] at h100
    omega
  · intro hgt
    refine (IsValid_spec e).2.1.mpr ⟨?_, by simp only [MaxTitleLength]; omega⟩
    intro hempty
    rw [hempty, hemp] at hgt
    omega

theorem C5_witness :
    (IsValid ⟨⟨List.replicate 100 'a'⟩, none,
        "2026-01-16T09:00:00Z", "2026-01-16T09:30:00Z"⟩ = none)
    ∧ (IsValid ⟨⟨List.replicate 101 'a'⟩, none,
        "2026-01-16T09:00:00Z", "2026-01-16T09:30:00Z"⟩ = some .TitleTooLong) := by
  constructor
  · exact (C5_title_boundary _ ⟨2026, 1, 16, 9, 0, 0, 0, 0⟩ ⟨2026, 1, 16, 9, 30, 0, 0, 0⟩
      (by rfl) (by rfl) (by rfl)).1 (by rfl)
  · exact (C5_title_boundary _ ⟨2026, 1, 16, 9, 0, 0, 0, 0⟩ ⟨2026, 1, 16, 9, 30, 0, 0, 0⟩
      (by rfl) (by rfl) (by rfl)).2 (by decide)

/-- C6: with a non-empty within-limit title and two parseable
timestamps, validation rejects with `EndTimeBeforeStart` exactly when
the parsed end instant strictly precedes the parsed start instant, and
accepts when the two instants coincide. -/
theorem C6_end_before_start_strict (e : CreateEventRequest) (s en : GoTime)
    (hT : e.Title ≠ "") (hL : e.Title.utf8ByteSize ≤ MaxTitleLength)
    (hps : ParseTimestamp e.StartTime = some s)
    (hpe : ParseTimestamp e.EndTime = some en) :
    (IsValid e = some .EndTimeBeforeStart ↔ instNs en < instNs s)
    ∧ (instNs en = instNs s → IsValid e = none) := by
  constructor
  · constructor
    · intro h
      obtain ⟨_, _, s2, en2, hps2, hpe2, hb⟩ := (IsValid_spec e).2.2.2.1.mp h
      rw [hps] at hps2
      rw [hpe] at hpe2
      injection hps2 with he1
      injection hpe2 with he2
      subst he1
      subst he2
      unfold goBefore at hb
      exact of_decide_eq_true hb
    · intro h
      exact (IsValid_spec e).2.2.2.1.mpr
        ⟨hT, hL, s, en, hps, hpe, decide_eq_true h⟩
  · intro h
    refine (IsValid_spec e).2.2.2.2.mpr ⟨hT, hL, s, en, hps, hpe, ?_⟩
    unfold goBefore
    rw [h]
    simp

theorem C6_witness :
    (IsValid ⟨"standup", none, "2026-01-16T09:00:00Z", "2026-01-16T09:00:00Z"⟩ = none)
    ∧ (IsValid ⟨"standup", none, "2026-01-16T09:00:00.5", "2026-01-16T09:00:00.4"⟩
        = some .EndTimeBeforeStart) := by
  constructor
  · exact (C6_end_before_start_strict _ ⟨2026, 1, 16, 9, 0, 0, 0, 0⟩
      ⟨2026, 1, 16, 9, 0, 0, 0, 0⟩ (by decide) (by decide) (by rfl) (by rfl)).2 (by decide)
  · exact (C6_end_before_start_strict _ ⟨2026, 1, 16, 9, 0, 0, 500000000, 0⟩
      ⟨2026, 1, 16, 9, 0, 0, 400000000, 0⟩ (by decide) (by decide) (by rfl) (by rfl)).1.mpr
      (by decide)

/-- C10: whenever `IsValid` reports no error, the two `ParseTimestamp`
calls of `createEvent` whose errors are discarded necessarily succeed,
and the entity built for persistence carries exactly their results. -/
theorem C10_discarded_parse_errors_unreachable (req : CreateEventRequest)
    (hv : IsValid req = none) :
    ∃ s en, ParseTimestamp req.StartTime = some s
      ∧ ParseTimestamp req.EndTime = some en
      ∧ builtEvent req = ⟨"", req.Title, req.Description, s, en, none⟩ := by
  obtain ⟨_, _, s, en, hps, hpe, _⟩ := (IsValid_spec req).2.2.2.2.mp hv
  exact ⟨s, en, hps, hpe, by simp [builtEvent, hps, hpe]⟩

theorem C10_witness :
    ∃ s en, ParseTimestamp "2026-01-16T09:00:00Z" = some s
      ∧ ParseTimestamp "2026-01-16T10:00:00Z" = some en
      ∧ builtEvent ⟨"standup", none, "2026-01-16T09:00:00Z", "2026-01-16T10:00:00Z"⟩
          = ⟨"", "standup", none, s, en, none⟩ :=
  C10_discarded_parse_errors_unreachable
    ⟨"standup", none, "2026-01-16T09:00:00Z", "2026-01-16T10:00:00Z"⟩ (by rfl)

/-- C7: for events respecting the schema's title bound, `InsertEvent`
persists exactly one new row and fails — with the primary-key
violation as its only failure — exactly when the identifier it writes
already exists; a failed insert leaves the table unchanged (the model
returns no new state on error). -/
theorem length_le_utf8ByteSize (s : String) : s.length ≤ s.utf8ByteSize := by
  rcases s with ⟨l⟩
  show l.length ≤ String.utf8ByteSize.go l
  induction l with
  | nil => exact Nat.le_refl 0
  | cons c cs ih =>
    have hpos := c.utf8Size_pos
    simp only [List.length_cons, String.utf8ByteSize.go]
    omega

theorem C7_insert_pk_collision (st : Store) (e : Event) (freshId : String)
    (now : GoTime) (htitle : e.Title.utf8ByteSize ≤ MaxTitleLength) :
    (InsertEvent freshId now st e = .error .duplicateID
      ↔ ∃ r ∈ st, r.id = (preparedEvent freshId now e).ID)
    ∧ (∀ err, InsertEvent freshId now st e = .error err → err = .duplicateID)
    ∧ (∀ st2 ev, InsertEvent freshId now st e = .ok (st2, ev) →
        ev = preparedEvent freshId now e
        ∧ st2 = st ++ [rowOfEvent ev]
        ∧ ∀ r ∈ st, r.id ≠ ev.ID) := by
  have hrow : (rowOfEvent (preparedEvent freshId now e)).title = e.Title := rfl
  have hno : ¬ MaxTitleLength < (rowOfEvent (preparedEvent freshId now e)).title.length := by
    rw [hrow]
    have := length_le_utf8ByteSize e.Title
    omega
  by_cases hdup : st.any (fun r => r.id = (rowOfEvent (preparedEvent freshId now e)).id) = true
  · have hins : InsertEvent freshId now st e = .error .duplicateID := by
      unfold InsertEvent
      rw [if_neg hno, if_pos hdup]
    refine ⟨?_, ?_, ?_⟩
    · simp only [hins, true_iff]
      obtain ⟨r, hr, hp⟩ := List.any_eq_true.mp hdup
      exact ⟨r, hr, of_decide_eq_true hp⟩
    · intro err herr
      rw [hins] at herr
      injection herr with h2
      exact h2.symm
    · intro st2 ev hok
      rw [hins] at hok
      exact absurd hok (by simp)
  · have hins : InsertEvent freshId now st e
        = .ok (st ++ [rowOfEvent (preparedEvent freshId now e)], preparedEvent freshId now e) := by
      unfold InsertEvent
      rw [if_neg hno, if_neg hdup]
    refine ⟨?_, ?_, ?_⟩
    · rw [hins]
      constructor
      · intro h
        exact absurd h (by simp)
      · intro hex
        obtain ⟨r, hr, hp⟩ := hex
        exact False.elim (hdup (List.any_eq_true.mpr ⟨r, hr, decide_eq_true hp⟩))
    · intro err herr
      rw [hins] at herr
      exact absurd herr (by simp)
    · intro st2 ev hok
      rw [hins] at hok
      injection hok with h2
      injection h2 with h21 h22
      subst h22
      refine ⟨rfl, h21.symm, ?_⟩
      intro r hr hid
      exact hdup (List.any_eq_true.mpr ⟨r, hr, decide_eq_true hid⟩)

theorem C7_witness :
    (InsertEvent "id2" ⟨2026, 1, 10, 12, 0, 0, 0, 0⟩
        [⟨"id1", "a", none, "2026-01-16T09:00:00Z", "2026-01-16T10:00:00Z",
          "2026-01-10T12:00:00Z"⟩]
        ⟨"id1", "b", none, ⟨2026, 1, 16, 9, 0, 0, 0, 0⟩,
          ⟨2026, 1, 16, 10, 0, 0, 0, 0⟩, none⟩
      = .error .duplicateID) := by
  refine (C7_insert_pk_collision _ _ _ _ (by decide)).1.mpr ?_
  exact ⟨⟨"id1", "a", none, "2026-01-16T09:00:00Z", "2026-01-16T10:00:00Z",
    "2026-01-10T12:00:00Z"⟩, by simp, rfl⟩

/-! ### List facts about the keyed table -/

theorem filter_id_len_zero_iff (st : Store) (x : String) :
    ((st.filter (fun r => r.id = x)).length = 0) ↔ ∀ r ∈ st, r.id ≠ x := by
  rw [List.length_eq_zero, List.filter_eq_nil_iff]
  simp

theorem nodup_filter_id_le_one (st : Store) (x : String)
    (hnd : (st.map Row.id).Nodup) :
    (st.filter (fun r => r.id = x)).length ≤ 1 := by
  induction st with
  | nil => simp
  | cons r st ih =>
    simp only [List.map_cons, List.nodup_cons] at hnd
    by_cases hrx : r.id = x
    · have hrest : st.filter (fun r2 => r2.id = x) = [] := by
        rw [List.filter_eq_nil_iff]
        intro a ha
        simp only [decide_eq_true_eq]
        intro hax
        exact hnd.1 (List.mem_map.mpr ⟨a, ha, hax.trans hrx.symm⟩)
      simp [List.filter_cons, hrx, hrest]
    · have := ih hnd.2
      simp [List.filter_cons, hrx]
      omega

theorem filter_not_id_length_eq_iff (st : Store) (x : String) :
    ((st.filter (fun r => ¬ r.id = x)).length = st.length) ↔ ∀ r ∈ st, r.id ≠ x := by
  induction st with
  | nil => simp
  | cons r st ih =>
    by_cases hrx : r.id = x
    · have hle := List.length_filter_le (fun r2 => !decide (r2.id = x)) st
      simp only [decide_not] at hle ⊢
      simp [List.filter_cons, hrx]
      intro h
      omega
    · simp [List.filter_cons, hrx, ih]

theorem delete_length_exact (st : Store) (x : String)
    (hnd : (st.map Row.id).Nodup) (hex : ∃ r ∈ st, r.id = x) :
    (st.filter (fun r => ¬ r.id = x)).length + 1 = st.length := by
  induction st with
  | nil => simp at hex
  | cons r st ih =>
    simp only [List.map_cons, List.nodup_cons] at hnd
    by_cases hrx : r.id = x
    · have hall : ∀ a ∈ st, a.id ≠ x := by
        intro a ha hax
        exact hnd.1 (List.mem_map.mpr ⟨a, ha, hax.trans hrx.symm⟩)
      have hlen := (filter_not_id_length_eq_iff st x).mpr hall
      simp [List.filter_cons, hrx]
      exact hall
    · have hex2 : ∃ a ∈ st, a.id = x := by
        obtain ⟨r2, hr2, hid2⟩ := hex
        rcases List.mem_cons.mp hr2 with he | hm
        · subst he
          exact absurd hid2 hrx
        · exact ⟨r2, hm, hid2⟩
      have hrec := ih hnd.2 hex2
      simp only [decide_not] at hrec
      simp [List.filter_cons, hrx]
      omega

/-- C8: `UpdateEvent` and `DeleteEvent` report not-found exactly when no
row carries the given identifier; on success (with the primary-key
invariant that row ids are distinct) exactly one row is affected and
every other row is unchanged. -/
theorem C8_update_delete_affect_one (st : Store)
    (hnd : (st.map Row.id).Nodup) (e : Event) (id : String) :
    (UpdateEvent st e = .error .notFound ↔ ∀ r ∈ st, r.id ≠ e.ID)
    ∧ (∀ st2, UpdateEvent st e = .ok st2 →
        (st.filter (fun r => r.id = e.ID)).length = 1
        ∧ st2 = st.map (fun r => if r.id = e.ID then updRow e r else r)
        ∧ st2.length = st.length
        ∧ ∀ i (h1 : i < st.length) (h2 : i < st2.length),
            (st.get ⟨i, h1⟩).id ≠ e.ID → st2.get ⟨i, h2⟩ = st.get ⟨i, h1⟩)
    ∧ (DeleteEvent st id = .error .notFound ↔ ∀ r ∈ st, r.id ≠ id)
    ∧ (∀ st2, DeleteEvent st id = .ok st2 →
        st2 = st.filter (fun r => ¬ r.id = id)
        ∧ st2.length + 1 = st.length
        ∧ ∀ r ∈ st, r.id ≠ id → r ∈ st2) := by
  refine ⟨?_, ?_, ?_, ?_⟩
  · unfold UpdateEvent
    by_cases hz : (st.filter (fun r => r.id = e.ID)).length = 0
    · rw [if_pos hz]
      constructor
      · intro _
        exact (filter_id_len_zero_iff st e.ID).mp hz
      · intro _
        rfl
    · rw [if_neg hz]
      constructor
      · intro h
        by_cases ht : MaxTitleLength < e.Title.length
        · rw [if_pos ht] at h
          injection h with h2
          exact absurd h2 (by simp)
        · rw [if_neg ht] at h
          exact absurd h (by simp)
      · intro hall
        exact absurd ((filter_id_len_zero_iff st e.ID).mpr hall) hz
  · intro st2 hok
    unfold UpdateEvent at hok
    by_cases hz : (st.filter (fun r => r.id = e.ID)).length = 0
    · rw [if_pos hz] at hok
      exact absurd hok (by simp)
    · rw [if_neg hz] at hok
      by_cases ht : MaxTitleLength < e.Title.length
      · rw [if_pos ht] at hok
        exact absurd hok (by simp)
      · rw [if_neg ht] at hok
        injection hok with h2
        have hle := nodup_filter_id_le_one st e.ID hnd
        subst h2
        refine ⟨by omega, rfl, by simp, ?_⟩
        intro i h1 h2x hne
        simp only [List.get_eq_getElem] at hne
        simp only [List.get_eq_getElem, List.getElem_map]
        rw [if_neg hne]
  · unfold DeleteEvent
    by_cases hz : (st.filter (fun r => ¬ r.id = id)).length = st.length
    · rw [if_pos hz]
      constructor
      · intro _
        exact (filter_not_id_length_eq_iff st id).mp hz
      · intro _
        rfl
    · rw [if_neg hz]
      constructor
      · intro h
        exact absurd h (by simp)
      · intro hall
        exact absurd ((filter_not_id_length_eq_iff st id).mpr hall) hz
  · intro st2 hok
    unfold DeleteEvent at hok
    by_cases hz : (st.filter (fun r => ¬ r.id = id)).length = st.length
    · rw [if_pos hz] at hok
      exact absurd hok (by simp)
    · rw [if_neg hz] at hok
      injection hok with h2
      have hex : ∃ r ∈ st, r.id = id := by
        by_contra hno
        push_neg at hno
        exact hz ((filter_not_id_length_eq_iff st id).mpr hno)
      subst h2
      refine ⟨rfl, delete_length_exact st id hnd hex, ?_⟩
      intro r hr hne
      apply List.mem_filter.mpr
      exact ⟨hr, by simpa using hne⟩

theorem C8_witness :
    (UpdateEvent
        [⟨"id1", "a", none, "2026-01-16T09:00:00Z", "2026-01-16T10:00:00Z",
          "2026-01-10T12:00:00Z"⟩]
        ⟨"id9", "b", none, zeroTime, zeroTime, none⟩ = .error .notFound)
    ∧ (DeleteEvent
        [⟨"id1", "a", none, "2026-01-16T09:00:00Z", "2026-01-16T10:00:00Z",
          "2026-01-10T12:00:00Z"⟩] "id9" = .error .notFound) := by
  constructor
  · exact (C8_update_delete_affect_one _ (by decide) _ "id9").1.mpr (by decide)
  · exact (C8_update_delete_affect_one _ (by decide)
      ⟨"id9", "b", none, zeroTime, zeroTime, none⟩ _).2.2.1.mpr (by decide)

/-! ### Row round-trip facts -/

theorem setNsecZero_eq {t : GoTime} (h : t.nsec = 0) :
    ({ t with nsec := 0 } : GoTime) = t := by
  cases t
  dsimp only at h
  rw [← h]

theorem fmtNanoList_eq_of_nsec_zero (t : GoTime) (h : t.nsec = 0) :
    fmtNanoList t = fmtRFC3339List t := by
  simp [fmtNanoList, fmtRFC3339List, fmtFrac, h]

theorem jsonTimestamp_eq_of_nsec_zero (t : GoTime) (h : t.nsec = 0) :
    jsonTimestamp t = fmtRFC3339 t := by
  unfold jsonTimestamp fmtRFC3339
  rw [fmtNanoList_eq_of_nsec_zero t h]

theorem rowToEvent_some {r : Row} {ev : Event} (h : rowToEvent r = some ev) :
    ev.ID = r.id ∧ ev.Title = r.title ∧ ev.Description = r.description
    ∧ pRFC3339 r.start_time.data = some ev.StartTime
    ∧ pRFC3339 r.end_time.data = some ev.EndTime
    ∧ ∃ c, ev.CreatedAt = some c ∧ pRFC3339 r.created_at.data = some c := by
  unfold rowToEvent at h
  simp only [Option.bind_eq_bind, Option.bind_eq_some] at h
  obtain ⟨s, hs, e2, he, c, hc, hp⟩ := h
  injection hp with hp
  subst hp
  exact ⟨rfl, rfl, rfl, hs, he, c, rfl, hc⟩

theorem GetEventByID_ok {st : Store} {id : String} {ev : Event}
    (h : GetEventByID st id = .ok ev) :
    ∃ r, st.find? (fun r => r.id = id) = some r ∧ rowToEvent r = some ev := by
  unfold GetEventByID at h
  split at h
  · exact absurd h (by simp)
  · rename_i r hf
    split at h
    · exact absurd h (by simp)
    · rename_i ev2 hr
      injection h with h2
      subst h2
      exact ⟨r, hf, hr⟩

theorem find?_append_last (st : Store) (r0 : Row) (fid : String)
    (h : ∀ r ∈ st, r.id ≠ fid) (h0 : r0.id = fid) :
    (st ++ [r0]).find? (fun r => r.id = fid) = some r0 := by
  induction st with
  | nil => simp [List.find?, h0]
  | cons r st ih =>
    have hne : ¬ r.id = fid := h r (by simp)
    simp only [List.cons_append, List.find?_cons, hne, decide_False]
    exact ih fun r2 hr2 => h r2 (by simp [hr2])

/-! ### Stored RFC3339 text carries no fractional second -/

theorem digitChar_toNat (d : Nat) :
    (digitChar d).toNat = 48 + d ∨ (digitChar d).toNat = 0 := by
  unfold digitChar Char.ofNat
  split
  · left
    rfl
  · right
    rfl

theorem dot_ne_digitChar (d : Nat) : ¬ ('.' : Char) = digitChar d := by
  intro heq
  have h := digitChar_toNat d
  rw [← heq] at h
  have hdot : ('.' : Char).toNat = 46 := rfl
  omega

theorem comma_ne_digitChar (d : Nat) : ¬ (',' : Char) = digitChar d := by
  intro heq
  have h := digitChar_toNat d
  rw [← heq] at h
  have hcom : (',' : Char).toNat = 44 := rfl
  omega

theorem dot_not_mem_fmt (t : GoTime) : ('.' : Char) ∉ fmtRFC3339List t := by
  intro hmem
  by_cases h0 : t.offset = 0
  · simp [fmtRFC3339List, pad4, pad2, fmtOffset, h0, dot_ne_digitChar] at hmem
  · by_cases hneg : t.offset < 0
    · simp [fmtRFC3339List, pad4, pad2, fmtOffset, h0, hneg, dot_ne_digitChar] at hmem
    · simp [fmtRFC3339List, pad4, pad2, fmtOffset, h0, hneg, dot_ne_digitChar] at hmem

theorem comma_not_mem_fmt (t : GoTime) : (',' : Char) ∉ fmtRFC3339List t := by
  intro hmem
  by_cases h0 : t.offset = 0
  · simp [fmtRFC3339List, pad4, pad2, fmtOffset, h0, comma_ne_digitChar] at hmem
  · by_cases hneg : t.offset < 0
    · simp [fmtRFC3339List, pad4, pad2, fmtOffset, h0, hneg, comma_ne_digitChar] at hmem
    · simp [fmtRFC3339List, pad4, pad2, fmtOffset, h0, hneg, comma_ne_digitChar] at hmem

theorem fmtRFC3339List_no_sep (t : GoTime) :
    ∀ c ∈ fmtRFC3339List t, c ≠ '.' ∧ c ≠ ',' := by
  intro c hc
  constructor <;> intro heq <;> subst heq
  · exact dot_not_mem_fmt t hc
  · exact comma_not_mem_fmt t hc

theorem expectChar_mem {c0 : Char} {cs r : List Char}
    (h : expectChar c0 cs = some r) : ∀ c ∈ r, c ∈ cs := by
  unfold expectChar at h
  split at h
  · split_ifs at h
    injection h with h2
    subst h2
    intro c hc
    simp [hc]
  · exact absurd h (by simp)

theorem parse2_mem {cs : List Char} {n : Nat} {r : List Char}
    (h : parse2 cs = some (n, r)) : ∀ c ∈ r, c ∈ cs := by
  unfold parse2 at h
  split at h
  · simp only [Option.bind_eq_bind, Option.bind_eq_some] at h
    obtain ⟨x, hx, y, hy, hp⟩ := h
    injection hp with hp
    injection hp with hp1 hp2
    subst hp2
    intro c hc
    simp [hc]
  · exact absurd h (by simp)

theorem parse4_mem {cs : List Char} {n : Nat} {r : List Char}
    (h : parse4 cs = some (n, r)) : ∀ c ∈ r, c ∈ cs := by
  unfold parse4 at h
  split at h
  · simp only [Option.bind_eq_bind, Option.bind_eq_some] at h
    obtain ⟨x, hx, y, hy, z, hz, w, hw, hp⟩ := h
    injection hp with hp
    injection hp with hp1 hp2
    subst hp2
    intro c hc
    simp [hc]
  · exact absurd h (by simp)

theorem parseFlex2_mem {cs : List Char} {n : Nat} {r : List Char}
    (h : parseFlex2 cs = some (n, r)) : ∀ c ∈ r, c ∈ cs := by
  unfold parseFlex2 at h
  split at h
  · split at h
    · exact absurd h (by simp)
    · split at h
      · injection h with h2
        injection h2 with h21 h22
        subst h22
        intro c hc
        simp [hc]
      · injection h with h2
        injection h2 with h21 h22
        subst h22
        intro c hc
        simp [hc]
    · injection h with h2
      injection h2 with h21 h22
      subst h22
      intro c hc
      simp at hc
  · exact absurd h (by simp)

theorem parseCore_mem {sep : Char} {cs : List Char}
    {y mo d h mi s : Nat} {r : List Char}
    (hp : parseCore sep cs = some (y, mo, d, h, mi, s, r)) : ∀ c ∈ r, c ∈ cs := by
  unfold parseCore at hp
  simp only [Option.bind_eq_bind, Option.bind_eq_some] at hp
  obtain ⟨⟨y1, cs1⟩, hy1, cs2, hcs2, ⟨mo1, cs3⟩, hmo1, cs4, hcs4, ⟨d1, cs5⟩, hd1,
    cs6, hcs6, ⟨h1, cs7⟩, hh1, cs8, hcs8, ⟨mi1, cs9⟩, hmi1, cs10, hcs10,
    ⟨s1, cs11⟩, hs1, hfin⟩ := hp
  split at hfin
  · simp only [Option.pure_def, Option.some.injEq, Prod.mk.injEq] at hfin
    obtain ⟨e1, e2, e3, e4, e5, e6, e7⟩ := hfin
    subst e7
    intro c hc
    exact parse4_mem hy1 c (expectChar_mem hcs2 c (parse2_mem hmo1 c
      (expectChar_mem hcs4 c (parse2_mem hd1 c (expectChar_mem hcs6 c
        (parseFlex2_mem hh1 c (expectChar_mem hcs8 c (parse2_mem hmi1 c
          (expectChar_mem hcs10 c (parse2_mem hs1 c hc))))))))))
  · exact absurd hfin (by simp)

theorem parseFracOpt_fst_zero {cs : List Char}
    (h : ∀ c ∈ cs, c ≠ '.' ∧ c ≠ ',') : parseFracOpt cs = (0, cs) := by
  unfold parseFracOpt
  rcases cs with _ | ⟨c, rest⟩
  · rfl
  · have hc := h c (by simp)
    dsimp only
    rw [if_neg (by
      intro hor
      rcases hor with h1 | h1
      · exact hc.1 h1
      · exact hc.2 h1)]

/-- Parsing RFC3339 text that contains no fraction separator — in
particular any `Format(time.RFC3339)` output — yields zero
nanoseconds: the stray-fraction rule never fires. -/
theorem pRFC3339_nsec_zero {cs : List Char} {t : GoTime}
    (hsep : ∀ c ∈ cs, c ≠ '.' ∧ c ≠ ',') (h : pRFC3339 cs = some t) :
    t.nsec = 0 := by
  unfold pRFC3339 at h
  simp only [Option.bind_eq_bind, Option.bind_eq_some] at h
  obtain ⟨⟨y, mo, d, hh, mi, s, cs1⟩, hcore, hrest⟩ := h
  have hmem := parseCore_mem hcore
  have hfr : parseFracOpt cs1 = (0, cs1) :=
    parseFracOpt_fst_zero fun c hc => hsep c (hmem c hc)
  rw [hfr] at hrest
  simp only [Option.bind_eq_bind, Option.bind_eq_some] at hrest
  obtain ⟨⟨off, cs3⟩, hoffp, hfin⟩ := hrest
  split at hfin
  · injection hfin with h2
    subst h2
    rfl
  · exact absurd hfin (by simp)

/-! ### C9: wire formatting of timestamps -/

def c9Req : CreateEventRequest :=
  ⟨"meeting", none, "2026-01-16T09:00:00.5Z", "2026-01-16T10:00:00Z"⟩

def c9Now : GoTime := ⟨2026, 1, 10, 12, 0, 0, 0, 0⟩

def c9Ev : Event :=
  ⟨"id1", "meeting", none, ⟨2026, 1, 16, 9, 0, 0, 500000000, 0⟩,
    ⟨2026, 1, 16, 10, 0, 0, 0, 0⟩, some c9Now⟩

/-- C9 counterexample: a valid create request whose start timestamp
carries fractional seconds produces a create response whose JSON
`start_time` is `2026-01-16T09:00:00.5Z` — not the seconds-precision
first accepted format (`Format(time.RFC3339)` of the same value). -/
theorem C9_counterexample :
    IsValid c9Req = none
    ∧ InsertEvent "id1" c9Now [] (builtEvent c9Req) = .ok ([rowOfEvent c9Ev], c9Ev)
    ∧ jsonTimestamp c9Ev.StartTime = "2026-01-16T09:00:00.5Z"
    ∧ jsonTimestamp c9Ev.StartTime ≠ fmtRFC3339 c9Ev.StartTime := by
  refine ⟨by rfl, by rfl, by rfl, by decide⟩

/-- C9 amended: the stored row always carries `Format(time.RFC3339)`
text, and for any store whose rows are such formatted text — as every
row this program writes is — a fetched (get-by-id) entity marshals
every timestamp in the seconds-precision first accepted format,
because the stored text carries no fraction separator and so re-parses
with zero nanoseconds; the create response instead uses the
RFC3339Nano JSON encoding, which coincides with the seconds-precision
format exactly when the value has zero nanoseconds. The identifier is
rendered as its string form in either case. -/
theorem C9_wire_timestamp_format (st : Store) (id : String) :
    (∀ ev, (∀ r ∈ st, ∃ t1 t2 t3, r.start_time = fmtRFC3339 t1
          ∧ r.end_time = fmtRFC3339 t2 ∧ r.created_at = fmtRFC3339 t3) →
      GetEventByID st id = .ok ev →
      jsonTimestamp ev.StartTime = fmtRFC3339 ev.StartTime
      ∧ jsonTimestamp ev.EndTime = fmtRFC3339 ev.EndTime
      ∧ ∀ c, ev.CreatedAt = some c → jsonTimestamp c = fmtRFC3339 c)
    ∧ (∀ e2 : Event, (rowOfEvent e2).start_time = fmtRFC3339 e2.StartTime
        ∧ (rowOfEvent e2).end_time = fmtRFC3339 e2.EndTime
        ∧ (rowOfEvent e2).id = e2.ID)
    ∧ (∀ t : GoTime, t.nsec = 0 → jsonTimestamp t = fmtRFC3339 t) := by
  refine ⟨?_, fun e2 => ⟨rfl, rfl, rfl⟩, jsonTimestamp_eq_of_nsec_zero⟩
  intro ev himg hok
  obtain ⟨r, hf, hr⟩ := GetEventByID_ok hok
  have hrmem : r ∈ st := List.mem_of_find?_eq_some hf
  obtain ⟨t1, t2, t3, him1, him2, him3⟩ := himg r hrmem
  obtain ⟨_, _, _, hps, hpe, c, hc, hcp⟩ := rowToEvent_some hr
  rw [him1] at hps
  rw [him2] at hpe
  rw [him3] at hcp
  have hns1 : ev.StartTime.nsec = 0 :=
    pRFC3339_nsec_zero (fmtRFC3339List_no_sep t1) hps
  have hns2 : ev.EndTime.nsec = 0 :=
    pRFC3339_nsec_zero (fmtRFC3339List_no_sep t2) hpe
  have hns3 : c.nsec = 0 :=
    pRFC3339_nsec_zero (fmtRFC3339List_no_sep t3) hcp
  refine ⟨jsonTimestamp_eq_of_nsec_zero _ hns1,
    jsonTimestamp_eq_of_nsec_zero _ hns2, ?_⟩
  intro c2 hc2
  rw [hc] at hc2
  injection hc2 with hc3
  subst hc3
  exact jsonTimestamp_eq_of_nsec_zero _ hns3

theorem C9_witness :
    jsonTimestamp ⟨2026, 1, 16, 10, 0, 0, 0, 0⟩
      = fmtRFC3339 ⟨2026, 1, 16, 10, 0, 0, 0, 0⟩ :=
  (C9_wire_timestamp_format [] "id1").2.2 ⟨2026, 1, 16, 10, 0, 0, 0, 0⟩ rfl

/-! ### C3: create-then-fetch round trip -/

def c3Req : CreateEventRequest :=
  ⟨"standup", some "daily", "2026-01-16T09:00:00.5Z", "2026-01-16T10:00:00Z"⟩

def c3Now : GoTime := ⟨2026, 1, 10, 12, 0, 0, 0, 0⟩

def c3Start : GoTime := ⟨2026, 1, 16, 9, 0, 0, 500000000, 0⟩

def c3Ev : Event :=
  ⟨"id1", "standup", some "daily", c3Start, ⟨2026, 1, 16, 10, 0, 0, 0, 0⟩, some c3Now⟩

def c3Fetched : Event :=
  ⟨"id1", "standup", some "daily", ⟨2026, 1, 16, 9, 0, 0, 0, 0⟩,
    ⟨2026, 1, 16, 10, 0, 0, 0, 0⟩, some c3Now⟩

/-- C3 counterexample: the request is valid and its start timestamp
parses to an instant with 500000000 nanoseconds, but storing via
`Format(time.RFC3339)` drops the fraction, so the fetched entity's
start instant differs from the parsed request instant by half a
second. -/
theorem C3_counterexample :
    IsValid c3Req = none
    ∧ ParseTimestamp c3Req.StartTime = some c3Start
    ∧ InsertEvent "id1" c3Now [] (builtEvent c3Req) = .ok ([rowOfEvent c3Ev], c3Ev)
    ∧ GetEventByID [rowOfEvent c3Ev] "id1" = .ok c3Fetched
    ∧ instNs c3Fetched.StartTime ≠ instNs c3Start := by
  refine ⟨by rfl, by rfl, by rfl, by rfl, by decide⟩

/-- C3 amended: for every valid create request whose parsed timestamps
carry no fractional seconds (and canonical offsets, minute field below
60), inserting the built entity under a fresh identifier and fetching
it back yields identical title and description and start/end values
denoting exactly the parsed request instants. In general the fetched
instants are the parsed instants truncated to whole seconds. -/
theorem C3_create_fetch_roundtrip (req : CreateEventRequest) (fid : String)
    (now s en : GoTime) (st : Store)
    (hv : IsValid req = none)
    (hps : ParseTimestamp req.StartTime = some s)
    (hpe : ParseTimestamp req.EndTime = some en)
    (hs0 : s.nsec = 0) (he0 : en.nsec = 0)
    (hso : s.offset.natAbs < 360000) (heo : en.offset.natAbs < 360000)
    (hnv : ValidTime now) (hno : now.offset.natAbs < 360000)
    (hfresh : ∀ r ∈ st, r.id ≠ fid) :
    ∃ ev fetched,
      InsertEvent fid now st (builtEvent req) = .ok (st ++ [rowOfEvent ev], ev)
      ∧ ev.ID = fid
      ∧ GetEventByID (st ++ [rowOfEvent ev]) fid = .ok fetched
      ∧ fetched.Title = req.Title ∧ fetched.Description = req.Description
      ∧ fetched.StartTime = s ∧ fetched.EndTime = en
      ∧ instNs fetched.StartTime = instNs s
      ∧ instNs fetched.EndTime = instNs en := by
  obtain ⟨hT, hL, s2, en2, hps2, hpe2, hgb2⟩ := (IsValid_spec req).2.2.2.2.mp hv
  have hpstart : (preparedEvent fid now (builtEvent req)).StartTime = s := by
    simp [preparedEvent, builtEvent, hps]
  have hpend : (preparedEvent fid now (builtEvent req)).EndTime = en := by
    simp [preparedEvent, builtEvent, hpe]
  have hpid : (preparedEvent fid now (builtEvent req)).ID = fid := by
    simp [preparedEvent, builtEvent]
  have hpca : (preparedEvent fid now (builtEvent req)).CreatedAt = some now := by
    simp [preparedEvent, builtEvent]
  have hptitle : (preparedEvent fid now (builtEvent req)).Title = req.Title := rfl
  have hpdesc : (preparedEvent fid now (builtEvent req)).Description = req.Description := rfl
  have hrowid : (rowOfEvent (preparedEvent fid now (builtEvent req))).id = fid := hpid
  have hrt_s : pRFC3339 (fmtRFC3339 s).data = some s := by
    rw [pRFC3339_fmtRFC3339 s (ParseTimestamp_valid hps) hso, setNsecZero_eq hs0]
  have hrt_e : pRFC3339 (fmtRFC3339 en).data = some en := by
    rw [pRFC3339_fmtRFC3339 en (ParseTimestamp_valid hpe) heo, setNsecZero_eq he0]
  have hrt_n : pRFC3339 (fmtRFC3339 now).data = some { now with nsec := 0 } :=
    pRFC3339_fmtRFC3339 now hnv hno
  have hins : InsertEvent fid now st (builtEvent req)
      = .ok (st ++ [rowOfEvent (preparedEvent fid now (builtEvent req))],
          preparedEvent fid now (builtEvent req)) := by
    unfold InsertEvent
    rw [if_neg (by
      show ¬ MaxTitleLength
        < (rowOfEvent (preparedEvent fid now (builtEvent req))).title.length
      have htt : (rowOfEvent (preparedEvent fid now (builtEvent req))).title
          = req.Title := rfl
      rw [htt]
      have := length_le_utf8ByteSize req.Title
      omega)]
    rw [if_neg (by
      rw [hrowid]
      intro hany
      obtain ⟨r, hr, hp⟩ := List.any_eq_true.mp hany
      exact hfresh r hr (of_decide_eq_true hp))]
  have hrte : rowToEvent (rowOfEvent (preparedEvent fid now (builtEvent req)))
      = some ⟨fid, req.Title, req.Description, s, en, some { now with nsec := 0 }⟩ := by
    unfold rowToEvent
    have h1 : (rowOfEvent (preparedEvent fid now (builtEvent req))).start_time
        = fmtRFC3339 s := by
      have hx : (rowOfEvent (preparedEvent fid now (builtEvent req))).start_time
          = fmtRFC3339 (preparedEvent fid now (builtEvent req)).StartTime := rfl
      rw [hx, hpstart]
    have h2 : (rowOfEvent (preparedEvent fid now (builtEvent req))).end_time
        = fmtRFC3339 en := by
      have hx : (rowOfEvent (preparedEvent fid now (builtEvent req))).end_time
          = fmtRFC3339 (preparedEvent fid now (builtEvent req)).EndTime := rfl
      rw [hx, hpend]
    have h3 : (rowOfEvent (preparedEvent fid now (builtEvent req))).created_at
        = fmtRFC3339 now := by
      have hx : (rowOfEvent (preparedEvent fid now (builtEvent req))).created_at
          = fmtRFC3339 ((preparedEvent fid now (builtEvent req)).CreatedAt.getD zeroTime) :=
        rfl
      rw [hx, hpca]
      rfl
    rw [h1, h2, h3, hrt_s, hrt_e, hrt_n]
    simp only [Option.bind_eq_bind, Option.some_bind]
    rw [hrowid]
    rfl
  refine ⟨preparedEvent fid now (builtEvent req),
    ⟨fid, req.Title, req.Description, s, en, some { now with nsec := 0 }⟩,
    hins, hpid, ?_, rfl, rfl, rfl, rfl, rfl, rfl⟩
  unfold GetEventByID
  rw [find?_append_last st _ fid hfresh hrowid]
  simp [hrte]

theorem C3_witness :
    ∃ ev fetched,
      InsertEvent "id1" ⟨2026, 1, 10, 12, 0, 0, 0, 0⟩ []
          (builtEvent ⟨"standup", none, "2026-01-16T09:00:00Z", "2026-01-16T10:00:00Z"⟩)
        = .ok ([] ++ [rowOfEvent ev], ev)
      ∧ ev.ID = "id1"
      ∧ GetEventByID ([] ++ [rowOfEvent ev]) "id1" = .ok fetched
      ∧ fetched.Title = "standup" ∧ fetched.Description = none
      ∧ fetched.StartTime = ⟨2026, 1, 16, 9, 0, 0, 0, 0⟩
      ∧ fetched.EndTime = ⟨2026, 1, 16, 10, 0, 0, 0, 0⟩
      ∧ instNs fetched.StartTime = instNs ⟨2026, 1, 16, 9, 0, 0, 0, 0⟩
      ∧ instNs fetched.EndTime = instNs ⟨2026, 1, 16, 10, 0, 0, 0, 0⟩ :=
  C3_create_fetch_roundtrip
    ⟨"standup", none, "2026-01-16T09:00:00Z", "2026-01-16T10:00:00Z"⟩
    "id1" ⟨2026, 1, 10, 12, 0, 0, 0, 0⟩ ⟨2026, 1, 16, 9, 0, 0, 0, 0⟩
    ⟨2026, 1, 16, 10, 0, 0, 0, 0⟩ []
    (by rfl) (by rfl) (by rfl) (by rfl) (by rfl) (by decide) (by decide)
    (by unfold ValidTime; decide) (by decide) (by simp)

/-! ### C4: list ordering -/

theorem charsLe_total : ∀ a b : List Char, charsLe a b = true ∨ charsLe b a = true := by
  intro a
  induction a with
  | nil => intro b; left; rfl
  | cons x xs ih =>
    intro b
    rcases b with _ | ⟨y, ys⟩
    · right
      rfl
    · by_cases hxy : x.toNat < y.toNat
      · left
        simp [charsLe, hxy]
      · by_cases hyx : y.toNat < x.toNat
        · right
          simp [charsLe, hyx]
        · rcases ih ys with h | h
          · left
            simp [charsLe, hxy, hyx, h]
          · right
            simp [charsLe, hxy, hyx, h]

theorem charsLe_trans : ∀ a b c : List Char,
    charsLe a b = true → charsLe b c = true → charsLe a c = true := by
  intro a
  induction a with
  | nil => intro b c _ _; rfl
  | cons x xs ih =>
    intro b c hab hbc
    rcases b with _ | ⟨y, ys⟩
    · simp [charsLe] at hab
    · rcases c with _ | ⟨z, zs⟩
      · simp [charsLe] at hbc
      · simp only [charsLe] at hab hbc ⊢
        split_ifs at hab hbc ⊢
        all_goals try rfl
        all_goals try exact ih ys zs hab hbc
        all_goals try simp at hab
        all_goals try simp at hbc
        all_goals omega

instance : IsTotal Row rowLe :=
  ⟨fun a b => charsLe_total a.start_time.data b.start_time.data⟩

instance : IsTrans Row rowLe :=
  ⟨fun a b c => charsLe_trans a.start_time.data b.start_time.data c.start_time.data⟩

theorem rowsToEvents_ok (rs : List Row) (h : ∀ r ∈ rs, (rowToEvent r).isSome) :
    ∃ es, rowsToEvents rs = .ok es
      ∧ List.Forall₂ (fun r ev => rowToEvent r = some ev) rs es := by
  induction rs with
  | nil => exact ⟨[], rfl, List.Forall₂.nil⟩
  | cons r rs ih =>
    obtain ⟨ev, hev⟩ := Option.isSome_iff_exists.mp (h r (by simp))
    obtain ⟨es, hok, hfa⟩ := ih fun r2 hr2 => h r2 (by simp [hr2])
    refine ⟨ev :: es, ?_, List.Forall₂.cons hev hfa⟩
    unfold rowsToEvents
    rw [hev, hok]

def c4RowA : Row :=
  ⟨"a", "A", none, "2026-01-16T09:00:00+05:00", "2026-01-16T10:00:00+05:00",
    "2026-01-01T00:00:00Z"⟩

def c4RowB : Row :=
  ⟨"b", "B", none, "2026-01-16T05:00:00Z", "2026-01-16T06:00:00Z",
    "2026-01-01T00:00:00Z"⟩

def c4EvA : Event :=
  ⟨"a", "A", none, ⟨2026, 1, 16, 9, 0, 0, 0, 18000⟩,
    ⟨2026, 1, 16, 10, 0, 0, 0, 18000⟩, some ⟨2026, 1, 1, 0, 0, 0, 0, 0⟩⟩

def c4EvB : Event :=
  ⟨"b", "B", none, ⟨2026, 1, 16, 5, 0, 0, 0, 0⟩,
    ⟨2026, 1, 16, 6, 0, 0, 0, 0⟩, some ⟨2026, 1, 1, 0, 0, 0, 0, 0⟩⟩

/-- C4 counterexample: two stored events whose start instants are
04:00Z (written `09:00:00+05:00`) and 05:00Z. The listing compares the
stored text byte-wise, so the 05:00Z event is returned first although
its start instant is the later one: the result is not ascending by
start instant. -/
theorem C4_counterexample :
    GetAllEvents [c4RowA, c4RowB] = .ok [c4EvB, c4EvA]
    ∧ instNs c4EvA.StartTime < instNs c4EvB.StartTime := by
  refine ⟨by rfl, by decide⟩

/-- C4 amended: the listing returns exactly the stored events (the
sorted row list is a permutation of the table) in ascending
lexicographic (byte-wise) order of their stored `start_time` text —
which coincides with ascending instant order only when all stored
offsets are equal — and an empty table yields an empty list, never an
absent value. -/
theorem C4_list_sorted_by_start_text (st : Store)
    (h : ∀ r ∈ st, (rowToEvent r).isSome) :
    ∃ es, GetAllEvents st = .ok es
      ∧ List.Forall₂ (fun r ev => rowToEvent r = some ev)
          (List.insertionSort rowLe st) es
      ∧ (List.insertionSort rowLe st).Perm st
      ∧ List.Sorted rowLe (List.insertionSort rowLe st)
      ∧ (st = [] → es = []) := by
  have hall : ∀ r ∈ List.insertionSort rowLe st, (rowToEvent r).isSome :=
    fun r hr => h r ((List.mem_insertionSort rowLe).mp hr)
  obtain ⟨es, hok, hfa⟩ := rowsToEvents_ok _ hall
  refine ⟨es, hok, hfa, List.perm_insertionSort rowLe st,
    List.sorted_insertionSort rowLe st, ?_⟩
  intro hempty
  subst hempty
  have : rowsToEvents (List.insertionSort rowLe ([] : Store)) = .ok [] := rfl
  rw [this] at hok
  injection hok with h2
  exact h2.symm

theorem C4_witness :
    ∃ es, GetAllEvents [c4RowA, c4RowB] = .ok es
      ∧ List.Forall₂ (fun r ev => rowToEvent r = some ev)
          (List.insertionSort rowLe [c4RowA, c4RowB]) es
      ∧ (List.insertionSort rowLe [c4RowA, c4RowB]).Perm [c4RowA, c4RowB]
      ∧ List.Sorted rowLe (List.insertionSort rowLe [c4RowA, c4RowB])
      ∧ ([c4RowA, c4RowB] = ([] : Store) → es = []) :=
  C4_list_sorted_by_start_text [c4RowA, c4RowB] (by decide)
